import Mathlib

/-!
# Verification of the G1 system assembly core (gsG1System.h)

This file gives a shallow embedding of the class `gsG1System<T>` from
`src/gsG1Basis/gsG1System.h` of the repository and proves / refutes the
frozen claims about it.

Modelling conventions:
* Eigen `gsVector<>` offset tables become `List ℤ`, accessed with `List.getD`
  (Eigen's asserted in-bounds access is reflected by in-range hypotheses
  where a theorem needs them).
* The `index_t` arithmetic of the source is embedded as `ℤ` arithmetic.
* Real (`real_t`, double) coefficients are embedded as `ℚ`; the numeric
  literals `1e-25` and `10e-25` of the source become `1/10^25` and
  `10/10^25`.
* The sparse matrix `D_sparse` is embedded as a total function
  `ℤ → ℤ → ℚ` (zero default); `insert` becomes a pointwise update, and an
  insertion member function becomes the list of `(row, column, value)`
  writes it performs followed by applying those writes.
* The external iterative sparse solver (Eigen CG) is out of scope per the
  spec; it is modelled as a function argument returning a solution vector
  together with a convergence flag (Eigen's `info()`), exactly as much
  structure as the claims need.
-/

namespace G1V

/-! ## Offset tables

The source builds every table `numBasisFunctions[k]` by the idiom

  `v.setZero(n+1); for i: v[i+1] = v[i] + count_i;`

`offs s counts` embeds that: entry `0` is `s` and entry `i+1` is entry `i`
plus `counts[i]`.  The source uses `s = 0` and later shifts a whole table
by `numBasisFunctions[k-1].last()` via `.array() + c`, embedded by `shiftT`.
-/

def offs (s : ℤ) : List ℤ → List ℤ
  | [] => [s]
  | c :: cs => s :: offs (s + c) cs

def shiftT (t : List ℤ) (c : ℤ) : List ℤ := t.map (· + c)

/-- Table access, `v[i]` of the source. -/
def gD (t : List ℤ) (i : ℕ) : ℤ := t.getD i 0

/-- `v.last()` of the source. -/
def lastD (t : List ℤ) : ℤ := t.getLastD 0

/-! ## Input data for the two initializers

Only the quantities the source actually reads from the external topology
and basis providers appear here, one field per queried value. -/

/-- Per-interface data read in `initialize_twoPatch` (lines 186-196):
degrees of the two matching 1-D components, the knot multiplicity
`basis_1.knots().multiplicityIndex(p_1+1)` and the two element counts. -/
structure InterfaceDataTP where
  p1 : ℤ
  p2 : ℤ
  mult1 : ℤ
  n1 : ℤ
  n2 : ℤ

/-- The four boundary tangent vectors read by the kink test
(lines 208-228): `mp.patch(q).jacobian(point).col(0)` for patch `q = 0,1`
at the two parametric corner points `(1,0)/(0,0)` and `(1,1)/(0,1)`. -/
structure GeoData where
  tang0c0 : ℚ × ℚ
  tang1c0 : ℚ × ℚ
  tang0c1 : ℚ × ℚ
  tang1c1 : ℚ × ℚ

/-- Per-vertex data: `mp.vertices()[i].size()` (valence) and the interface
count of the locally recomputed sub-topology `temp_mp.interfaces().size()`
(lines 285-290). -/
structure VertexData where
  valence : ℕ
  subIfaces : ℕ

/-- Input of `initialize_twoPatch` (the values it queries). -/
structure TwoPatchInput where
  patchSizes0 : List ℤ
  patchSizes1 : List ℤ
  mbCount : ℕ
  ifaces : List InterfaceDataTP
  bdries : List ℤ
  verts : List VertexData
  geo : GeoData
  innerKnotMulti : ℤ
  neumann : Bool
  isogeometric : Bool

/-- Per-interface / per-boundary data read in the general `initialize`
(lines 399-434): `maxDegree()` and `numElements()` of the edge component. -/
structure EdgeDataGen where
  maxDeg : ℤ
  numElems : ℤ

/-- Input of the general `initialize`. -/
structure GeneralInput where
  patchSizes0 : List ℤ
  ifacesG : List EdgeDataGen
  bdriesG : List EdgeDataGen
  verts : List VertexData
  neumann : Bool
  isogeometric : Bool

/-! ## The embedded system state -/

/-- The state built by the constructors of `gsG1System` that the insertion
operations, `finalize` and `solve` read.  `nbf0` .. `nbf6` are
`numBasisFunctions[0]` .. `numBasisFunctions[6]`. -/
structure G1Sys where
  twoPatch : Bool
  neumannBdy : Bool
  isogeometric : Bool
  nbf0 : List ℤ
  nbf1 : List ℤ
  nbf2 : List ℤ
  nbf3 : List ℤ
  nbf4 : List ℤ
  nbf5 : List ℤ
  nbf6 : List ℤ
  kindOfVertex : List ℤ
  sizePlusInt : List ℤ
  sizePlusBdy : List ℤ
  kink0 : Bool
  kink1 : Bool
  dim_K : ℤ
  dim_G1_Dofs : ℤ
  dim_G1_Bdy : ℤ
deriving DecidableEq

/-! ## Kink detection (initialize_twoPatch, lines 204-229) -/

/-- Squared determinant of the 2x2 matrix whose columns are the two
tangents: `matrix.determinant()*matrix.determinant()`. -/
def detSq (v w : ℚ × ℚ) : ℚ := (v.1 * w.2 - v.2 * w.1) * (v.1 * w.2 - v.2 * w.1)

/-- The kink test `matrix.determinant()*matrix.determinant() > 1e-25`. -/
def kinkTest (v w : ℚ × ℚ) : Bool := decide (detSq v w > 1 / 10 ^ 25)

/-- `kink[0]` as computed in each interface iteration: patch 0 at corner
`(1,0)`, patch 1 at corner `(0,0)`. -/
def kink0Of (g : GeoData) : Bool := kinkTest g.tang0c0 g.tang1c0

/-- `kink[1]`: patch 0 at corner `(1,1)`, patch 1 at corner `(0,1)`. -/
def kink1Of (g : GeoData) : Bool := kinkTest g.tang0c1 g.tang1c1

/-! ## Per-entity DOF counts, two-patch initializer -/

def mpOf (d : InterfaceDataTP) : ℤ := min d.p1 d.p2

/-- `m_r = min(m_p - multiplicityIndex, m_p - 2)` (line 195). -/
def mrOf (d : InterfaceDataTP) : ℤ := min (mpOf d - d.mult1) (mpOf d - 2)

def mnOf (d : InterfaceDataTP) : ℤ := min d.n1 d.n2

/-- `numInnerKnot` (lines 233-235). -/
def numInnerKnot (innerKnotMulti m_p m_r : ℤ) : ℤ :=
  if innerKnotMulti > 0 ∧ m_p - 1 - m_r = 1 then 3 else 0

/-- `numIntBdy` after the two kink tests (lines 198-228). -/
def numIntBdy (neumann : Bool) (g : GeoData) : ℤ :=
  (if neumann then 8 else 4) + (if kink0Of g then 1 else 0) +
    (if kink1Of g then 1 else 0)

/-- Interface DOF count of `initialize_twoPatch` (line 240). -/
def interfaceCountTP (neumann : Bool) (g : GeoData) (ikm : ℤ)
    (d : InterfaceDataTP) : ℤ :=
  2 * (mpOf d - mrOf d - 1) * (mnOf d - 1) + 2 * mpOf d + 1 -
    numIntBdy neumann g + 2 * numInnerKnot ikm (mpOf d) (mrOf d)

/-- `sizePlusInt[i]` of `initialize_twoPatch` (line 241). -/
def sizePlusIntTP (ikm : ℤ) (d : InterfaceDataTP) : ℤ :=
  (mpOf d - mrOf d - 1) * (mnOf d - 1) + mpOf d + 1 +
    numInnerKnot ikm (mpOf d) (mrOf d)

/-- The raw interface count of the claims plus the inner-knot addition,
before endpoint exclusions. -/
def rawPlusInner (ikm : ℤ) (d : InterfaceDataTP) : ℤ :=
  2 * (mpOf d - mrOf d - 1) * (mnOf d - 1) + 2 * mpOf d + 1 +
    2 * numInnerKnot ikm (mpOf d) (mrOf d)

/-- Boundary-edge count `numBasisFunctions[3]` of `initialize_twoPatch`
(lines 249-258), as a function of `basis_edge.size()`. -/
def bdyEdgeCountTP (neumann : Bool) (sz : ℤ) : ℤ :=
  if neumann then 2 * sz - 8 else sz - 4

/-- Edge count `numBasisFunctions[1]` of `initialize_twoPatch`. -/
def edgeCountTP (neumann : Bool) (sz : ℤ) : ℤ :=
  if neumann then 0 else sz - 4

/-- Vertex classification (lines 263-313): `-1` boundary, `0` internal,
`1` interface-boundary. -/
def vertexKind (v : VertexData) : ℤ :=
  if v.valence = 1 then -1
  else if v.valence = v.subIfaces then 0
  else 1

/-- Vertex DOF count `numBasisFunctions[2]` of `initialize_twoPatch`. -/
def vertexDofCountTP (neumann : Bool) (v : VertexData) : ℤ :=
  if v.valence = 1 then (if neumann then 0 else 1)
  else 0

/-- Boundary-vertex DOF count `numBasisFunctions[4]` of
`initialize_twoPatch`; vertex `i = 1` consults `kink[0]`, every other
interface-boundary vertex consults `kink[1]` (line 310). -/
def vertexBdyCountTP (neumann : Bool) (k0 k1 : Bool) (i : ℕ)
    (v : VertexData) : ℤ :=
  if v.valence = 1 then (if neumann then 4 else 3)
  else if v.valence = v.subIfaces then 0
  else if neumann then 4
  else 2 + (if (if i = 1 then k0 else k1) then 1 else 0)

/-- The final value of the member `kink`: it is resized and recomputed in
every iteration of the interface loop (lines 204-228), always from patches
0 and 1 at the same corner points; with no interface it is never set (the
vector stays empty in the source; the embedding defaults to false). -/
def kinksOf (inp : TwoPatchInput) : Bool × Bool :=
  inp.ifaces.foldl (fun _ _ => (kink0Of inp.geo, kink1Of inp.geo))
    (false, false)

/-- `initialize_twoPatch` (lines 139-360). -/
def initTwoPatch (inp : TwoPatchInput) : G1Sys :=
  let nbf5 := offs 0 inp.patchSizes0
  let nbf6 :=
    if ¬inp.isogeometric ∧ inp.mbCount = 2 then
      offs (lastD nbf5) inp.patchSizes1
    else if inp.isogeometric then offs 0 inp.patchSizes0
    else List.replicate (inp.patchSizes0.length + 1) 0
  let kinks := kinksOf inp
  let nbf0 := offs 0 (inp.ifaces.map
    (interfaceCountTP inp.neumann inp.geo inp.innerKnotMulti))
  let spInt := inp.ifaces.map (sizePlusIntTP inp.innerKnotMulti)
  let nbf1r := offs 0 (inp.bdries.map (edgeCountTP inp.neumann))
  let nbf3r := offs 0 (inp.bdries.map (bdyEdgeCountTP inp.neumann))
  let spBdy := inp.bdries.map (· - 4)
  let kind := inp.verts.map vertexKind
  let nbf2r := offs 0 (inp.verts.map (vertexDofCountTP inp.neumann))
  let nbf4r := offs 0 (inp.verts.enum.map
    (fun p => vertexBdyCountTP inp.neumann kinks.1 kinks.2 p.1 p.2))
  -- chaining (lines 316-319)
  let nbf1 := shiftT nbf1r (lastD nbf0)
  let nbf2 := shiftT nbf2r (lastD nbf1)
  let nbf3 := shiftT nbf3r (lastD nbf2)
  let nbf4 := shiftT nbf4r (lastD nbf3)
  { twoPatch := true
    neumannBdy := inp.neumann
    isogeometric := inp.isogeometric
    nbf0 := nbf0, nbf1 := nbf1, nbf2 := nbf2, nbf3 := nbf3, nbf4 := nbf4
    nbf5 := nbf5, nbf6 := nbf6
    kindOfVertex := kind
    sizePlusInt := spInt
    sizePlusBdy := spBdy
    kink0 := kinks.1
    kink1 := kinks.2
    dim_K := lastD nbf6
    dim_G1_Dofs := lastD nbf2
    dim_G1_Bdy := lastD nbf4 - gD nbf3 0 }

/-! ## Per-entity DOF counts, general initializer (lines 363-509) -/

/-- Interface count of the general `initialize` (line 410), with
`m_r = 1` fixed (line 405). -/
def interfaceCountGen (d : EdgeDataGen) : ℤ :=
  2 * (d.maxDeg - 1 - 1) * (d.numElems - 1) + 2 * d.maxDeg - 9

def sizePlusIntGen (d : EdgeDataGen) : ℤ :=
  (d.maxDeg - 1 - 1) * (d.numElems - 1) + d.maxDeg + 1

/-- Boundary-edge count of the general `initialize` (lines 422-431). -/
def bdyEdgeCountGen (neumann : Bool) (d : EdgeDataGen) : ℤ :=
  if neumann then 2 * (d.maxDeg - 1 - 1) * (d.numElems - 1) + 2 * d.maxDeg + 1 - 10
  else (d.maxDeg - 1 - 1) * (d.numElems - 1) + d.maxDeg + 1 - 6

def edgeCountGen (neumann : Bool) (d : EdgeDataGen) : ℤ :=
  if neumann then 0
  else (d.maxDeg - 1 - 1) * (d.numElems - 1) + d.maxDeg - 4

def sizePlusBdyGen (d : EdgeDataGen) : ℤ :=
  (d.maxDeg - 1 - 1) * (d.numElems - 1) + d.maxDeg + 1

/-- Vertex DOF counts of the general `initialize` (lines 436-464). -/
def vertexDofCountGen (v : VertexData) : ℤ :=
  if v.valence = 1 then 1
  else if v.valence = v.subIfaces then 6
  else 3

def vertexBdyCountGen (v : VertexData) : ℤ :=
  if v.valence = 1 then 6
  else if v.valence = v.subIfaces then 0
  else 6

/-- The general `initialize` (lines 363-509). -/
def initGeneral (inp : GeneralInput) : G1Sys :=
  let nbf5 := offs 0 inp.patchSizes0
  let nbf6 :=
    if inp.isogeometric then offs 0 inp.patchSizes0
    else List.replicate (inp.patchSizes0.length + 1) 0
  let nbf0 := offs 0 (inp.ifacesG.map interfaceCountGen)
  let spInt := inp.ifacesG.map sizePlusIntGen
  let nbf1r := offs 0 (inp.bdriesG.map (edgeCountGen inp.neumann))
  let nbf3r := offs 0 (inp.bdriesG.map (bdyEdgeCountGen inp.neumann))
  let spBdy := inp.bdriesG.map sizePlusBdyGen
  let kind := inp.verts.map vertexKind
  let nbf2r := offs 0 (inp.verts.map vertexDofCountGen)
  let nbf4r := offs 0 (inp.verts.map vertexBdyCountGen)
  let nbf1 := shiftT nbf1r (lastD nbf0)
  let nbf2 := shiftT nbf2r (lastD nbf1)
  let nbf3 := shiftT nbf3r (lastD nbf2)
  let nbf4 := shiftT nbf4r (lastD nbf3)
  { twoPatch := false
    neumannBdy := inp.neumann
    isogeometric := inp.isogeometric
    nbf0 := nbf0, nbf1 := nbf1, nbf2 := nbf2, nbf3 := nbf3, nbf4 := nbf4
    nbf5 := nbf5, nbf6 := nbf6
    kindOfVertex := kind
    sizePlusInt := spInt
    sizePlusBdy := spBdy
    kink0 := false
    kink1 := false
    dim_K := lastD nbf6
    dim_G1_Dofs := lastD nbf2
    dim_G1_Bdy := lastD nbf4 - gD nbf3 0 }

end G1V

namespace G1V

/-! ## Sparse writes

A call `D_sparse.insert(ii, jj) = v` is one `Wr`; an insertion member
function produces the list of writes its loops perform, applied in order
by `applyW`. -/

abbrev Wr : Type := ℤ × ℤ × ℚ

def wRow (w : Wr) : ℤ := w.1

def wCol (w : Wr) : ℤ := w.2.1

def wVal (w : Wr) : ℚ := w.2.2

def applyW (ws : List Wr) (D : ℤ → ℤ → ℚ) : ℤ → ℤ → ℚ :=
  ws.foldl (fun M w => fun r c => if r = wRow w ∧ c = wCol w then wVal w else M r c) D

/-- Pruning guard of every insertion loop (lines 616, 624, 635, 645, 656,
672, 687, 724): `coef * coef > 10e-25`. -/
def pruneOK (c : ℚ) : Bool := decide (c * c > 10 / 10 ^ 25)

/-- The coefficient-copy loop shared by the insertions: for every
coefficient index `j` whose value passes the pruning guard, write the
value at each target row, at column `colBase + j`. -/
def coefWrites (rows : List ℤ) (colBase : ℤ) (coefs : List ℚ) : List Wr :=
  coefs.enum.flatMap (fun p =>
    if pruneOK p.2 then rows.map (fun r => (r, colBase + (p.1 : ℤ), p.2)) else [])

/-- Target rows of basis function `bfID` in `insertInterfaceEdge`,
two-patch non-Neumann branch (lines 610-668).  `plusInt = sizePlusInt[0]`,
`r41 = numBasisFunctions[4][1]`, `r43 = numBasisFunctions[4][3]`,
`r0i = numBasisFunctions[0][iID]`.  The first and last plus- and
minus-space functions and (with a kink) one further function per end are
rerouted to reserved boundary-vertex rows; all others go to the interface
block, shifted past the rerouted ones. -/
def interfaceRowsTP (plusInt : ℤ) (k0 k1 : Bool) (r41 r43 r0i : ℤ)
    (bfID : ℤ) : List ℤ :=
  if bfID = 0 ∨ bfID = plusInt - 1 ∨ bfID = plusInt ∨ bfID = 2 * plusInt - 2 then
    (if bfID = 0 ∨ bfID = plusInt then
      [r41 + (if bfID = 0 then 0 else 1)] else []) ++
    (if bfID = plusInt - 1 ∨ bfID = 2 * plusInt - 2 then
      [r43 + (if bfID = plusInt - 1 then 0 else 1)] else [])
  else if bfID = 1 ∧ k0 then [r41 + 2]
  else if bfID = plusInt - 2 ∧ k1 then [r43 + 2]
  else
    [r0i + bfID - (if bfID < plusInt - (if k1 then 2 else 1)
      then (if k0 then 2 else 1)
      else 3 + (if k0 then 1 else 0) + (if k1 then 1 else 0))]

/-- Writes of `insertInterfaceEdge` (lines 604-680).  `pA`/`pB` are
`item.first().patch` / `item.second().patch`; `coefs0`/`coefs1` the
coefficient vectors of the two patches of the local piece `mp`. -/
def interfaceRows (sys : G1Sys) (iID : ℕ) (bfID : ℤ) : List ℤ :=
  if sys.twoPatch ∧ ¬sys.neumannBdy then
    interfaceRowsTP (gD sys.sizePlusInt 0) sys.kink0 sys.kink1
      (gD sys.nbf4 1) (gD sys.nbf4 3) (gD sys.nbf0 iID) bfID
  else [gD sys.nbf0 iID + bfID]

def insertInterfaceEdgeW (sys : G1Sys) (pA pB : ℕ) (iID : ℕ) (bfID : ℤ)
    (coefs0 coefs1 : List ℚ) : List Wr :=
  coefWrites (interfaceRows sys iID bfID) (gD sys.nbf6 pA) coefs0 ++
    coefWrites (interfaceRows sys iID bfID) (gD sys.nbf6 pB) coefs1

/-- Target row of `insertBoundaryEdge` (lines 682-716).  The source
compares the unsigned `bfID` with `sizePlusBdy[bID] - 6`; the embedding
uses integer arithmetic (the wrap-around of `size_t` for
`sizePlusBdy[bID] < 6` is not modelled). -/
def boundaryRow (sys : G1Sys) (bID : ℕ) (bfID : ℤ) : ℤ :=
  if sys.twoPatch ∧ ¬sys.neumannBdy then
    (if bfID < gD sys.sizePlusBdy bID then gD sys.nbf3 bID + bfID
     else gD sys.nbf1 bID + bfID - gD sys.sizePlusBdy bID)
  else if ¬sys.neumannBdy then
    (if bfID < gD sys.sizePlusBdy bID - 6 then gD sys.nbf3 bID + bfID
     else gD sys.nbf1 bID + bfID - gD sys.sizePlusBdy bID + 6)
  else gD sys.nbf3 bID + bfID

/-- Writes of `insertBoundaryEdge`; `itemPatch` is `item.patch`. -/
def insertBoundaryEdgeW (sys : G1Sys) (itemPatch : ℕ) (bID : ℕ)
    (bfID : ℤ) (coefs : List ℚ) : List Wr :=
  coefWrites [boundaryRow sys bID bfID] (gD sys.nbf5 itemPatch) coefs

/-- Target row of `insertVertex` (lines 718-746); `ii` is initialised to
`-1` and stays `-1` for an out-of-range vertex kind. -/
def vertexRow (sys : G1Sys) (vID : ℕ) (nDofs bfID : ℤ) : ℤ :=
  if gD sys.kindOfVertex vID = 0 then gD sys.nbf2 vID + bfID
  else if gD sys.kindOfVertex vID = -1 then
    (if bfID < nDofs then gD sys.nbf2 vID + bfID
     else gD sys.nbf4 vID + bfID - nDofs)
  else if gD sys.kindOfVertex vID = 1 then
    (if bfID < nDofs then gD sys.nbf2 vID + bfID
     else gD sys.nbf4 vID + bfID - nDofs)
  else -1

/-- Writes of `insertVertex`; `patches` pairs each `patchIndex[np]` with
the coefficient vector of `mp.patch(np)`. -/
def insertVertexW (sys : G1Sys) (patches : List (ℕ × List ℚ)) (vID : ℕ)
    (nDofs bfID : ℤ) : List Wr :=
  patches.flatMap (fun p =>
    coefWrites [vertexRow sys vID nDofs bfID] (gD sys.nbf5 p.1) p.2)

/-! ## finalize (lines 748-801) -/

/-- The writes `D_sparse.insert(ii, jj) = 1` of the interior loop of
`finalize` (lines 774-787): for each patch `np` with tensor dimensions
`(dim_u, dim_v)`, for `2 <= j < dim_v - 2` and `2 <= i < dim_u - 2`,
row `dim_G1_Dofs + dim_G1_Bdy + c` and column
`c = numBasisFunctions[5][np] + j*dim_u + i`. -/
def finalizeInteriorW (sys : G1Sys) (dims : List (ℕ × ℕ)) : List Wr :=
  dims.enum.flatMap (fun q =>
    (List.range' 2 (q.2.2 - 4)).flatMap (fun j : ℕ =>
      (List.range' 2 (q.2.1 - 4)).map (fun i : ℕ =>
        (sys.dim_G1_Dofs + sys.dim_G1_Bdy +
           (gD sys.nbf5 q.1 + (j : ℤ) * (q.2.1 : ℤ) + (i : ℤ)),
         gD sys.nbf5 q.1 + (j : ℤ) * (q.2.1 : ℤ) + (i : ℤ), (1 : ℚ)))))

/-- Spec side (claim C4): a per-patch local coefficient column `c` is
strictly interior when, within its patch's column block, its tensor
indices `i = local % dim_u` and `j = local / dim_u` satisfy
`2 <= i < dim_u - 2` and `2 <= j < dim_v - 2`. -/
def isInteriorCol (nbf5 : List ℤ) (dims : List (ℕ × ℕ)) (c : ℤ) : Prop :=
  ∃ np : ℕ, np < dims.length ∧
    gD nbf5 np ≤ c ∧
    c < gD nbf5 np +
      ((dims.getD np (0, 0)).1 : ℤ) * ((dims.getD np (0, 0)).2 : ℤ) ∧
    2 ≤ (c - gD nbf5 np) % ((dims.getD np (0, 0)).1 : ℤ) ∧
    (c - gD nbf5 np) % ((dims.getD np (0, 0)).1 : ℤ) <
      ((dims.getD np (0, 0)).1 : ℤ) - 2 ∧
    2 ≤ (c - gD nbf5 np) / ((dims.getD np (0, 0)).1 : ℤ) ∧
    (c - gD nbf5 np) / ((dims.getD np (0, 0)).1 : ℤ) <
      ((dims.getD np (0, 0)).2 : ℤ) - 2

/-- Effect of multiplying by the selector `B_boundary_sparse` built in
`finalize` (lines 757-770): it has a diagonal one exactly at rows
`dim_G1_Dofs <= i < dim_G1_Dofs + dim_G1_Bdy`, so `B_boundary_sparse * D`
keeps exactly those rows of `D`. -/
def selBoundaryRows (dDofs dBdy : ℤ) (D : ℤ → ℤ → ℚ) : ℤ → ℤ → ℚ :=
  fun r c => if dDofs ≤ r ∧ r < dDofs + dBdy then D r c else 0

/-- The boundary-value vector `m_g1` after `finalize` (line 799): zero
everywhere except the block `[dim_G1_Dofs, dim_G1_Dofs + dim_G1_Bdy)`,
which holds the caller-supplied `g1`. -/
def mg1After (dDofs dBdy : ℤ) (g1 : ℤ → ℚ) : ℤ → ℚ :=
  fun r => if dDofs ≤ r ∧ r < dDofs + dBdy then g1 (r - dDofs) else 0

/-! ## constructSparseG1Solution (lines 511-528) -/

/-- `constructSparseG1Solution`: copy the block of the first
`dim_G1_Dofs + dim_G1_Bdy + 1` rows of `D_sparse`, scale each G1-DOF row
by the corresponding entry of `solVector`, each boundary row by the
corresponding entry of `m_g1`, and insert the interior part of
`solVector` into the one extra row. -/
def constructSparseG1Solution (sys : G1Sys) (D : ℤ → ℤ → ℚ) (mg1 : ℤ → ℚ)
    (solVector : ℤ → ℚ) : ℤ → ℤ → ℚ :=
  let dDofs := sys.dim_G1_Dofs.toNat
  let dBdy := sys.dim_G1_Bdy.toNat
  let dK := sys.dim_K.toNat
  let res0 : ℤ → ℤ → ℚ := fun r c =>
    if 0 ≤ r ∧ r < (dDofs : ℤ) + (dBdy : ℤ) + 1 ∧ 0 ≤ c ∧ c < (dK : ℤ)
    then D r c else 0
  let res1 := (List.range dDofs).foldl
    (fun M (i : ℕ) => fun r c =>
      if r = (i : ℤ) then M r c * solVector (i : ℤ) else M r c)
    res0
  let res2 := (List.range dBdy).foldl
    (fun M (i : ℕ) => fun r c =>
      if r = (dDofs : ℤ) + (i : ℤ) then M r c * mg1 ((dDofs : ℤ) + (i : ℤ))
      else M r c)
    res1
  applyW ((List.range dK).map (fun i : ℕ =>
    (((dDofs : ℤ) + (dBdy : ℤ), (i : ℤ),
      solVector ((dDofs : ℤ) + (dBdy : ℤ) + (i : ℤ))) : Wr))) res2

/-! ## solve (lines 803-866)

The Eigen conjugate-gradient solver is external; it is modelled as a
function from the assembled matrix and right-hand side to a solution
vector together with a convergence flag (its `info()`).  The source reads
only the returned vector `x0`. -/

def solveG1 {R C : ℕ} (D0 Db : Matrix (Fin R) (Fin C) ℚ) (mg1 : Fin R → ℚ)
    (solver : Matrix (Fin R) (Fin R) ℚ → (Fin R → ℚ) → (Fin R → ℚ) × Bool)
    (K : Matrix (Fin C) (Fin C) ℚ) (f : Fin C → ℚ) : Fin R → ℚ :=
  let A := D0 * K * D0.transpose
  let F := D0.mulVec f - (D0 * K * Db.transpose).mulVec mg1
  (solver A F).1

end G1V

namespace G1V

/-! ## Spec-side definitions (for refinement comparison)

These follow the wording of the specification, to be compared against the
definitions embedded from the source. -/

/-- Spec side, section 4.4: the block of `D` made of the fixed-category
(boundary) rows, `dim_G1_Bdy` of them starting at row `dim_G1_Dofs`. -/
def boundaryBlockSpec {R C : ℕ} (dDofs dBdy : ℕ) (h : dDofs + dBdy ≤ R)
    (D : Matrix (Fin R) (Fin C) ℚ) : Matrix (Fin dBdy) (Fin C) ℚ :=
  fun b c => D ⟨dDofs + (b : ℕ), by omega⟩ c

/-- Spec side, section 4.4: `F = D_0 f - D_0 K D_boundary^t g` with `g`
the stored boundary value vector (one scalar per fixed-category row). -/
def FSpec {R C : ℕ} (dDofs dBdy : ℕ) (h : dDofs + dBdy ≤ R)
    (D0 : Matrix (Fin R) (Fin C) ℚ) (D : Matrix (Fin R) (Fin C) ℚ)
    (K : Matrix (Fin C) (Fin C) ℚ) (f : Fin C → ℚ) (g : Fin dBdy → ℚ) :
    Fin R → ℚ :=
  D0.mulVec f - (D0 * K * (boundaryBlockSpec dDofs dBdy h D).transpose).mulVec g

/-- The selector `B_boundary_sparse` built in `finalize` (lines 757-770),
restricted-row form: a diagonal one exactly at the rows
`dim_G1_Dofs <= i < dim_G1_Dofs + dim_G1_Bdy`. -/
def selBoundaryFin (R : ℕ) (dDofs dBdy : ℕ) : Matrix (Fin R) (Fin R) ℚ :=
  fun i j => if i = j ∧ dDofs ≤ (i : ℕ) ∧ (i : ℕ) < dDofs + dBdy then 1 else 0

/-- `m_g1` after `finalize` (line 799): the caller-supplied `g1` sits in
the boundary block, everything else is the zero initialisation. -/
def mg1Fin (R : ℕ) (dDofs dBdy : ℕ) (g : Fin dBdy → ℚ) : Fin R → ℚ :=
  fun r => if h : dDofs ≤ (r : ℕ) ∧ (r : ℕ) < dDofs + dBdy
    then g ⟨(r : ℕ) - dDofs, by omega⟩ else 0

/-! ## The chained-table invariant (spec section 3, claim C3) -/

/-- All seven offset tables are non-decreasing and each of the five
chained categories starts where the previous one ends.  (The tables are
nonempty by construction; that is recorded here because the chaining
statement reads first and last entries.) -/
def tablesChained (sys : G1Sys) : Prop :=
  sys.nbf0 ≠ [] ∧ sys.nbf1 ≠ [] ∧ sys.nbf2 ≠ [] ∧ sys.nbf3 ≠ [] ∧
  sys.nbf4 ≠ [] ∧
  List.Chain' (· ≤ ·) sys.nbf0 ∧ List.Chain' (· ≤ ·) sys.nbf1 ∧
  List.Chain' (· ≤ ·) sys.nbf2 ∧ List.Chain' (· ≤ ·) sys.nbf3 ∧
  List.Chain' (· ≤ ·) sys.nbf4 ∧ List.Chain' (· ≤ ·) sys.nbf5 ∧
  List.Chain' (· ≤ ·) sys.nbf6 ∧
  lastD sys.nbf0 = gD sys.nbf1 0 ∧ lastD sys.nbf1 = gD sys.nbf2 0 ∧
  lastD sys.nbf2 = gD sys.nbf3 0 ∧ lastD sys.nbf3 = gD sys.nbf4 0

instance (sys : G1Sys) : Decidable (tablesChained sys) := by
  unfold tablesChained; infer_instance

/-! ## Insertion calls as data (claim C7) -/

/-- The entity an insertion call is addressed to. -/
inductive EntityTag where
  | iface (iID : ℕ)
  | bdryEdge (bID : ℕ)
  | vertex (vID : ℕ)
deriving DecidableEq

/-- One insertion call with all its arguments. -/
inductive InsCall where
  | iface (pA pB iID : ℕ) (bfID : ℤ) (coefs0 coefs1 : List ℚ)
  | bdryEdge (itemPatch bID : ℕ) (bfID : ℤ) (coefs : List ℚ)
  | vertex (patches : List (ℕ × List ℚ)) (vID : ℕ) (nDofs bfID : ℤ)
deriving DecidableEq

def entityOf : InsCall → EntityTag
  | .iface _ _ iID _ _ _ => .iface iID
  | .bdryEdge _ bID _ _ => .bdryEdge bID
  | .vertex _ vID _ _ => .vertex vID

/-- The writes a call performs (dispatch to the member functions). -/
def writesOfCall (sys : G1Sys) : InsCall → List Wr
  | .iface pA pB iID bfID c0 c1 => insertInterfaceEdgeW sys pA pB iID bfID c0 c1
  | .bdryEdge p bID bfID cs => insertBoundaryEdgeW sys p bID bfID cs
  | .vertex ps vID nDofs bfID => insertVertexW sys ps vID nDofs bfID

def rowsOfCall (sys : G1Sys) (c : InsCall) : List ℤ :=
  (writesOfCall sys c).map wRow

/-- A call is addressed to an existing entity with a local ordinal inside
the entity's allocated block.  The conditions relate the ordinal to the
slot sizes of the offset tables exactly as the allocation formulas of the
initializers do. -/
def callValid (sys : G1Sys) : InsCall → Prop
  | .iface _ _ iID bfID _ _ =>
      iID + 1 < sys.nbf0.length ∧ 0 ≤ bfID ∧
      (if sys.twoPatch ∧ ¬sys.neumannBdy then
        bfID < 2 * gD sys.sizePlusInt 0 - 1 ∧
        3 ≤ gD sys.sizePlusInt 0 ∧
        gD sys.nbf0 (iID + 1) - gD sys.nbf0 iID =
          2 * gD sys.sizePlusInt 0 - 1 -
            (4 + (if sys.kink0 then 1 else 0) + (if sys.kink1 then 1 else 0))
      else bfID < gD sys.nbf0 (iID + 1) - gD sys.nbf0 iID)
  | .bdryEdge _ bID bfID _ =>
      bID + 1 < sys.nbf3.length ∧ bID + 1 < sys.nbf1.length ∧ 0 ≤ bfID ∧
      (if sys.twoPatch ∧ ¬sys.neumannBdy then
        gD sys.sizePlusBdy bID = gD sys.nbf3 (bID + 1) - gD sys.nbf3 bID ∧
        bfID - gD sys.sizePlusBdy bID < gD sys.nbf1 (bID + 1) - gD sys.nbf1 bID
      else if ¬sys.neumannBdy then
        gD sys.sizePlusBdy bID - 6 = gD sys.nbf3 (bID + 1) - gD sys.nbf3 bID ∧
        bfID - (gD sys.sizePlusBdy bID - 6) <
          gD sys.nbf1 (bID + 1) - gD sys.nbf1 bID ∧
        6 ≤ gD sys.sizePlusBdy bID
      else bfID < gD sys.nbf3 (bID + 1) - gD sys.nbf3 bID)
  | .vertex _ vID nDofs bfID =>
      vID + 1 < sys.nbf2.length ∧ vID + 1 < sys.nbf4.length ∧
      0 ≤ bfID ∧ 0 ≤ nDofs ∧
      (gD sys.kindOfVertex vID = 0 ∨ gD sys.kindOfVertex vID = -1 ∨
        gD sys.kindOfVertex vID = 1) ∧
      (gD sys.kindOfVertex vID = 0 → bfID < gD sys.nbf2 (vID + 1) - gD sys.nbf2 vID) ∧
      (gD sys.kindOfVertex vID ≠ 0 →
        (if bfID < nDofs then bfID < gD sys.nbf2 (vID + 1) - gD sys.nbf2 vID
         else bfID - nDofs < gD sys.nbf4 (vID + 1) - gD sys.nbf4 vID))

instance (sys : G1Sys) (c : InsCall) : Decidable (callValid sys c) := by
  cases c <;> (unfold callValid; infer_instance)

/-- The boundary-vertex blocks of vertices 1 and 3 are large enough for
the rerouted endpoint functions of the two-patch mode (the initializer
reserves `2 + kink` rows there). -/
def twoPatchReserved (sys : G1Sys) : Prop :=
  4 < sys.nbf4.length ∧
  2 + (if sys.kink0 then 1 else 0) ≤ gD sys.nbf4 2 - gD sys.nbf4 1 ∧
  2 + (if sys.kink1 then 1 else 0) ≤ gD sys.nbf4 4 - gD sys.nbf4 3

instance (sys : G1Sys) : Decidable (twoPatchReserved sys) := by
  unfold twoPatchReserved; infer_instance

/-! ## Concrete test inputs (used by counterexamples and witnesses) -/

/-- A one-patch, four-boundary, four-corner configuration for the general
initializer: one 5x5 patch, degree-4 edges with 3 elements. -/
def genInpEx : GeneralInput :=
  { patchSizes0 := [25]
    ifacesG := []
    bdriesG := [⟨4, 3⟩, ⟨4, 3⟩, ⟨4, 3⟩, ⟨4, 3⟩]
    verts := [⟨1, 0⟩, ⟨1, 0⟩, ⟨1, 0⟩, ⟨1, 0⟩]
    neumann := false
    isogeometric := true }

def sysEx : G1Sys := initGeneral genInpEx

/-- A general-initializer configuration with one interface of degree 5
and 2 elements per side (used by the C2 counterexample). -/
def genInpC2 : GeneralInput :=
  { patchSizes0 := [49, 49]
    ifacesG := [⟨5, 2⟩]
    bdriesG := [⟨5, 2⟩, ⟨5, 2⟩]
    verts := [⟨1, 0⟩, ⟨2, 1⟩]
    neumann := false
    isogeometric := true }

/-- A two-patch configuration with one interface (degree 2, one element),
no kinks (parallel tangents at both shared corners), vertices 1 and 3
interface-boundary. -/
def tpInpA : TwoPatchInput :=
  { patchSizes0 := [9, 9]
    patchSizes1 := [16, 16]
    mbCount := 2
    ifaces := [⟨2, 2, 2, 1, 1⟩]
    bdries := [6, 6, 6, 6]
    verts := [⟨1, 0⟩, ⟨2, 1⟩, ⟨1, 0⟩, ⟨2, 1⟩, ⟨1, 0⟩, ⟨1, 0⟩]
    geo := ⟨(1, 0), (1, 0), (1, 0), (1, 0)⟩
    innerKnotMulti := 0
    neumann := false
    isogeometric := false }

def sysTPa : G1Sys := initTwoPatch tpInpA

/-- Same two-patch configuration but with the patch tangents at the first
shared corner at 90 degrees (a kink at end `u = 0`). -/
def tpInpB : TwoPatchInput :=
  { tpInpA with geo := ⟨(1, 0), (0, 1), (1, 0), (1, 0)⟩ }

/-- The two colliding calls of the C7 counterexample: an interface
insertion whose first plus-space function is rerouted to the
boundary-vertex block of vertex 1, and a vertex insertion addressed to
vertex 1 targeting that same block. -/
def callA : InsCall := .iface 0 1 0 0 [1] [1]

def callB : InsCall := .vertex [(0, [1])] 1 0 0

/-- Row slot of entity `e` in an offset table: the half-open interval
between consecutive table entries. -/
def inSlot (t : List ℤ) (e : ℕ) (r : ℤ) : Prop :=
  gD t e ≤ r ∧ r < gD t (e + 1)

instance (t : List ℤ) (e : ℕ) (r : ℤ) : Decidable (inSlot t e r) := by
  unfold inSlot
  infer_instance

def isIfaceCall : InsCall → Prop
  | .iface _ _ _ _ _ _ => True
  | _ => False

instance (c : InsCall) : Decidable (isIfaceCall c) := by
  cases c <;> (unfold isIfaceCall; infer_instance)

/-- A vertex call that stays clear of the boundary-vertex rows of
vertices 1 and 3 (reserved in two-patch mode for rerouted interface
functions); any other call trivially qualifies. -/
def noVertexBdry13 : InsCall → Prop
  | .vertex _ vID nDofs bfID => (vID = 1 ∨ vID = 3) → bfID < nDofs
  | _ => True

instance (c : InsCall) : Decidable (noVertexBdry13 c) := by
  cases c <;> (unfold noVertexBdry13; infer_instance)

/-- Where a valid call's rows can land: in the call's own slot, or, for
the rerouted interface endpoint/kink functions of the two-patch mode, in
the reserved boundary-vertex slots of vertices 1 and 3, or, for vertex
ordinals at or past `nDofs`, in the vertex's boundary-vertex slot. -/
def rowLoc (sys : G1Sys) : InsCall → ℤ → Prop
  | .iface _ _ iID _ _ _, r =>
      inSlot sys.nbf0 iID r ∨
        ((sys.twoPatch ∧ ¬sys.neumannBdy) ∧
          (inSlot sys.nbf4 1 r ∨ inSlot sys.nbf4 3 r))
  | .bdryEdge _ bID _ _, r => inSlot sys.nbf3 bID r ∨ inSlot sys.nbf1 bID r
  | .vertex _ vID nDofs bfID, r =>
      inSlot sys.nbf2 vID r ∨ (nDofs ≤ bfID ∧ inSlot sys.nbf4 vID r)

/-- The state `initialize_twoPatch` builds on `tpInpA`, written out (the
equality is proved below). -/
def sysTPaVal : G1Sys :=
  { twoPatch := true
    neumannBdy := false
    isogeometric := false
    nbf0 := [0, 1]
    nbf1 := [1, 3, 5, 7, 9]
    nbf2 := [9, 10, 10, 11, 11, 12, 13]
    nbf3 := [13, 15, 17, 19, 21]
    nbf4 := [21, 24, 26, 29, 31, 34, 37]
    nbf5 := [0, 9, 18]
    nbf6 := [18, 34, 50]
    kindOfVertex := [-1, 1, -1, 1, -1, -1]
    sizePlusInt := [3]
    sizePlusBdy := [2, 2, 2, 2]
    kink0 := false
    kink1 := false
    dim_K := 50
    dim_G1_Dofs := 13
    dim_G1_Bdy := 24 }

/-- A boundary-edge insertion used by the C7 witness. -/
def callC : InsCall := .bdryEdge 0 0 0 [1]

/-! ## Concrete data for the C5 and C8 witnesses/counterexamples -/

def D0ex : Matrix (Fin 2) (Fin 1) ℚ := fun _ _ => 1

def Dex : Matrix (Fin 2) (Fin 1) ℚ := fun r _ => if (r : ℕ) = 1 then 2 else 3

def Kex : Matrix (Fin 1) (Fin 1) ℚ := fun _ _ => 1

def fex : Fin 1 → ℚ := fun _ => 5

def gex : Fin 1 → ℚ := fun _ => 7

/-- A model external solver that reports success. -/
def solverEx : Matrix (Fin 2) (Fin 2) ℚ → (Fin 2 → ℚ) → (Fin 2 → ℚ) × Bool :=
  fun _ F => (F, true)

/-- A model external solver that fails to converge (flag false) and
returns its best iterate. -/
def badSolver : Matrix (Fin 2) (Fin 2) ℚ → (Fin 2 → ℚ) → (Fin 2 → ℚ) × Bool :=
  fun _ _ => (fun _ => 42, false)

/-- The same iterate reported as converged. -/
def goodFlagSolver :
    Matrix (Fin 2) (Fin 2) ℚ → (Fin 2 → ℚ) → (Fin 2 → ℚ) × Bool :=
  fun _ _ => (fun _ => 42, true)

end G1V

namespace G1V

/-! ## Lemmas about offset tables -/

lemma offs_length (s : ℤ) (l : List ℤ) : (offs s l).length = l.length + 1 := by
  induction l generalizing s with
  | nil => rfl
  | cons c cs ih => simp [offs, ih]

lemma offs_ne_nil (s : ℤ) (l : List ℤ) : offs s l ≠ [] := by
  cases l <;> simp [offs]

lemma offs_head (s : ℤ) (l : List ℤ) : gD (offs s l) 0 = s := by
  cases l <;> rfl

lemma gD_offs_succ (s : ℤ) (c : ℤ) (cs : List ℤ) (i : ℕ) :
    gD (offs s (c :: cs)) (i + 1) = gD (offs (s + c) cs) i := by
  rfl

lemma getLastD_of_ne_nil {l : List ℤ} (h : l ≠ []) (d : ℤ) :
    l.getLastD d = lastD l := by
  cases l with
  | nil => exact absurd rfl h
  | cons a t => simp only [lastD, List.getLastD_cons]

lemma offs_last (s : ℤ) (l : List ℤ) : lastD (offs s l) = s + l.sum := by
  induction l generalizing s with
  | nil => simp [offs, lastD]
  | cons c cs ih =>
      show (s :: offs (s + c) cs).getLastD 0 = s + (c :: cs).sum
      rw [List.getLastD_cons, getLastD_of_ne_nil (offs_ne_nil _ _), ih,
        List.sum_cons]
      ring

/-- The basic difference identity: the table allocates `counts[i]` slots to
entity `i`. -/
lemma gD_offs_sub (s : ℤ) (l : List ℤ) (i : ℕ) (hi : i < l.length) :
    gD (offs s l) (i + 1) - gD (offs s l) i = l.getD i 0 := by
  induction l generalizing s i with
  | nil => simp at hi
  | cons c cs ih =>
      cases i with
      | zero =>
          show gD (offs (s + c) cs) 0 - gD (offs s (c :: cs)) 0 = c
          rw [offs_head, offs_head]
          ring
      | succ j =>
          have hj : j < cs.length := by simpa using hi
          simpa [gD_offs_succ] using ih (s + c) j hj

lemma gD_offs_mono_succ (s : ℤ) (l : List ℤ) (hnn : ∀ c ∈ l, 0 ≤ c)
    (i : ℕ) (hi : i + 1 < (offs s l).length) :
    gD (offs s l) i ≤ gD (offs s l) (i + 1) := by
  induction l generalizing s i with
  | nil => simp [offs] at hi
  | cons c cs ih =>
      cases i with
      | zero =>
          have hc : 0 ≤ c := hnn c (by simp)
          show gD (offs s (c :: cs)) 0 ≤ gD (offs (s + c) cs) 0
          rw [offs_head, offs_head]
          omega
      | succ j =>
          have hj : j + 1 < (offs (s + c) cs).length := by
            simpa [offs] using hi
          have := ih (s + c) (fun x hx => hnn x (by simp [hx])) j hj
          simpa [gD_offs_succ] using this

lemma gD_offs_mono (s : ℤ) (l : List ℤ) (hnn : ∀ c ∈ l, 0 ≤ c)
    {i j : ℕ} (hij : i ≤ j) (hj : j < (offs s l).length) :
    gD (offs s l) i ≤ gD (offs s l) j := by
  induction j with
  | zero => simp_all
  | succ k ih =>
      rcases Nat.lt_or_ge i (k + 1) with h | h
      · exact le_trans (ih (by omega) (by omega))
          (gD_offs_mono_succ s l hnn k hj)
      · have : i = k + 1 := by omega
        simp [this]

lemma gD_oob (t : List ℤ) (i : ℕ) (hi : t.length ≤ i) : gD t i = 0 :=
  List.getD_eq_default _ _ hi

lemma lastD_eq_gD (t : List ℤ) :
    lastD t = gD t (t.length - 1) := by
  simp [lastD, gD, List.getLastD_eq_getLast?, List.getLast?_eq_getElem?,
    List.getD_eq_getElem?_getD]

lemma gD_le_lastD (s : ℤ) (l : List ℤ) (hnn : ∀ c ∈ l, 0 ≤ c) (i : ℕ)
    (hi : i < (offs s l).length) :
    gD (offs s l) i ≤ lastD (offs s l) := by
  rw [lastD_eq_gD]
  exact gD_offs_mono s l hnn (by omega) (by omega)

lemma head_le_gD (s : ℤ) (l : List ℤ) (hnn : ∀ c ∈ l, 0 ≤ c) (i : ℕ)
    (hi : i < (offs s l).length) : s ≤ gD (offs s l) i := by
  have := gD_offs_mono s l hnn (Nat.zero_le i) hi
  rw [offs_head] at this
  exact this

lemma gD_shiftT (t : List ℤ) (c : ℤ) (i : ℕ) (hi : i < t.length) :
    gD (shiftT t c) i = gD t i + c := by
  simp only [gD, shiftT]
  rw [List.getD_eq_getElem _ _ (by simpa using hi),
      List.getD_eq_getElem _ _ hi, List.getElem_map]

lemma shiftT_offs (s : ℤ) (l : List ℤ) (c : ℤ) :
    shiftT (offs s l) c = offs (s + c) l := by
  induction l generalizing s with
  | nil => simp [offs, shiftT]
  | cons x xs ih =>
      show (s + c) :: shiftT (offs (s + x) xs) c = (s + c) :: offs (s + c + x) xs
      rw [ih (s + x)]
      have : s + x + c = s + c + x := by ring
      rw [this]

lemma lastD_shiftT (t : List ℤ) (c : ℤ) (h : t ≠ []) :
    lastD (shiftT t c) = lastD t + c := by
  rw [lastD_eq_gD, lastD_eq_gD]
  have hlen : (shiftT t c).length = t.length := by simp [shiftT]
  rw [hlen]
  exact gD_shiftT t c _ (by cases t with
    | nil => exact absurd rfl h
    | cons a l => simp)


/-! ## Generic chain lemmas -/

lemma chain_le_offs (s : ℤ) (l : List ℤ) (hnn : ∀ c ∈ l, 0 ≤ c) :
    List.Chain' (· ≤ ·) (offs s l) := by
  induction l generalizing s with
  | nil => simp [offs]
  | cons c cs ih =>
      rw [show offs s (c :: cs) = s :: offs (s + c) cs from rfl,
        List.chain'_cons']
      refine ⟨?_, ih (s + c) (fun x hx => hnn x (by simp [hx]))⟩
      intro y hy
      have hc : 0 ≤ c := hnn c (by simp)
      have hys : y = s + c := by
        cases cs <;> simp [offs] at hy <;> omega
      omega

lemma chain_le_replicate (n : ℕ) :
    List.Chain' (· ≤ ·) (List.replicate n (0 : ℤ)) := by
  induction n with
  | zero => simp
  | succ m ih =>
      cases m with
      | zero => simp
      | succ k =>
          rw [List.replicate_succ, List.chain'_cons']
          refine ⟨?_, ih⟩
          intro y hy
          rw [List.replicate_succ] at hy
          simp at hy
          omega

lemma chain_gD_mono {t : List ℤ} (hc : List.Chain' (· ≤ ·) t) {i j : ℕ}
    (hij : i ≤ j) (hj : j < t.length) : gD t i ≤ gD t j := by
  rcases Nat.eq_or_lt_of_le hij with rfl | hlt
  · exact le_refl _
  · have hp := List.chain'_iff_pairwise.1 hc
    have := List.pairwise_iff_get.1 hp ⟨i, by omega⟩ ⟨j, hj⟩ (by simpa)
    rw [gD, gD, List.getD_eq_getElem _ _ (show i < t.length by omega),
      List.getD_eq_getElem _ _ hj]
    simpa [List.get_eq_getElem] using this

lemma gD_le_lastD_chain {t : List ℤ} (hc : List.Chain' (· ≤ ·) t) (i : ℕ)
    (hi : i < t.length) : gD t i ≤ lastD t := by
  rw [lastD_eq_gD]
  exact chain_gD_mono hc (by omega) (by omega)

lemma gD_head_le_chain {t : List ℤ} (hc : List.Chain' (· ≤ ·) t) (i : ℕ)
    (hi : i < t.length) : gD t 0 ≤ gD t i :=
  chain_gD_mono hc (Nat.zero_le i) hi

lemma getD_map {α : Type} (f : α → ℤ) (l : List α) (i : ℕ) (d : α)
    (hi : i < l.length) : (l.map f).getD i 0 = f (l.getD i d) := by
  rw [List.getD_eq_getElem _ _ (by simpa using hi),
    List.getD_eq_getElem _ _ hi, List.getElem_map]

lemma getD_enum_map {α : Type} (f : ℕ × α → ℤ) (l : List α) (i : ℕ) (d : α)
    (hi : i < l.length) : (l.enum.map f).getD i 0 = f (i, l.getD i d) := by
  rw [List.getD_eq_getElem _ _ (by simpa using hi),
    List.getD_eq_getElem _ _ hi]
  simp [List.getElem_enum]

/-! ## Lemmas about the write machinery -/

lemma applyW_cons (w : Wr) (ws : List Wr) (D : ℤ → ℤ → ℚ) :
    applyW (w :: ws) D =
      applyW ws (fun r c => if r = wRow w ∧ c = wCol w then wVal w else D r c) :=
  rfl

lemma applyW_cell_congr (ws : List Wr) (X Y : ℤ → ℤ → ℚ) (r c : ℤ)
    (h : X r c = Y r c) : applyW ws X r c = applyW ws Y r c := by
  induction ws generalizing X Y with
  | nil => exact h
  | cons w ws ih =>
      rw [applyW_cons, applyW_cons]
      apply ih
      by_cases hrc : r = wRow w ∧ c = wCol w
      · simp [hrc]
      · simp [hrc, h]

lemma applyW_nocell (ws : List Wr) (D : ℤ → ℤ → ℚ) (r c : ℤ)
    (h : ∀ w ∈ ws, ¬(r = wRow w ∧ c = wCol w)) : applyW ws D r c = D r c := by
  induction ws generalizing D with
  | nil => rfl
  | cons w ws ih =>
      rw [applyW_cons, ih _ (fun w' hw' => h w' (by simp [hw']))]
      rw [if_neg (h w (by simp))]

lemma applyW_norow (ws : List Wr) (D : ℤ → ℤ → ℚ) (r c : ℤ)
    (h : ∀ w ∈ ws, wRow w ≠ r) : applyW ws D r c = D r c :=
  applyW_nocell ws D r c (fun w hw hc => h w hw hc.1.symm)

/-- Writes to disjoint row sets commute. -/
lemma applyW_comm (ws1 ws2 : List Wr)
    (h : ∀ w1 ∈ ws1, ∀ w2 ∈ ws2, wRow w1 ≠ wRow w2) (D : ℤ → ℤ → ℚ) :
    applyW ws1 (applyW ws2 D) = applyW ws2 (applyW ws1 D) := by
  funext r c
  by_cases h1 : ∃ w1 ∈ ws1, wRow w1 = r
  · obtain ⟨w1, hw1, hr⟩ := h1
    have h2 : ∀ w ∈ ws2, wRow w ≠ r := by
      intro w hw
      have := h w1 hw1 w hw
      omega
    have e1 : applyW ws1 (applyW ws2 D) r c = applyW ws1 D r c :=
      applyW_cell_congr ws1 _ _ r c (applyW_norow ws2 D r c h2)
    have e2 : applyW ws2 (applyW ws1 D) r c = applyW ws1 D r c :=
      applyW_norow ws2 _ r c h2
    rw [e1, e2]
  · push_neg at h1
    have e1 : applyW ws1 (applyW ws2 D) r c = applyW ws2 D r c :=
      applyW_norow ws1 _ r c h1
    have e2 : applyW ws2 (applyW ws1 D) r c = applyW ws2 D r c :=
      applyW_cell_congr ws2 _ _ r c (applyW_norow ws1 D r c h1)
    rw [e1, e2]

/-- The value at a cell after a write list in which every write to that
cell carries the same value `v`, at least one write hitting it. -/
lemma applyW_last_write (ws : List Wr) (r c : ℤ) (v : ℚ) (D : ℤ → ℤ → ℚ)
    (hex : ∃ w ∈ ws, wRow w = r ∧ wCol w = c)
    (hall : ∀ w ∈ ws, wRow w = r → wCol w = c → wVal w = v) :
    applyW ws D r c = v := by
  induction ws generalizing D with
  | nil => simp at hex
  | cons w0 ws ih =>
      rw [applyW_cons]
      by_cases hex2 : ∃ w ∈ ws, wRow w = r ∧ wCol w = c
      · exact ih _ hex2 (fun w hw => hall w (List.mem_cons_of_mem _ hw))
      · have hw0 : wRow w0 = r ∧ wCol w0 = c := by
          rcases hex with ⟨w, hw, hrc⟩
          rcases List.mem_cons.1 hw with rfl | hmem
          · exact hrc
          · exact absurd ⟨w, hmem, hrc⟩ hex2
        rw [applyW_nocell ws _ r c
          (fun w hw hc => hex2 ⟨w, hw, hc.1.symm, hc.2.symm⟩)]
        rw [if_pos ⟨hw0.1.symm, hw0.2.symm⟩]
        exact hall w0 (by simp) hw0.1 hw0.2

lemma pruneOK_iff (c : ℚ) : pruneOK c = true ↔ c * c > 10 / 10 ^ 25 := by
  simp [pruneOK]

lemma mem_coefWrites {rows : List ℤ} {colBase : ℤ} {coefs : List ℚ}
    {w : Wr} :
    w ∈ coefWrites rows colBase coefs ↔
      ∃ j : ℕ, j < coefs.length ∧ pruneOK (coefs.getD j 0) = true ∧
        ∃ r ∈ rows, w = (r, colBase + (j : ℤ), coefs.getD j 0) := by
  unfold coefWrites
  rw [List.mem_flatMap]
  constructor
  · rintro ⟨p, hp, hw⟩
    have hget := List.mem_enum_iff_getElem?.1 hp
    have hlt : p.1 < coefs.length := by
      have := List.getElem?_eq_some.1 hget
      exact this.1
    have hval : coefs.getD p.1 0 = p.2 := by
      rw [List.getD_eq_getElem?_getD, hget]
      rfl
    by_cases hpr : pruneOK p.2 = true
    · rw [if_pos hpr] at hw
      rcases List.mem_map.1 hw with ⟨r, hr, rfl⟩
      exact ⟨p.1, hlt, by rw [hval]; exact hpr, r, hr, by rw [hval]⟩
    · rw [if_neg hpr] at hw
      simp at hw
  · rintro ⟨j, hj, hpr, r, hr, rfl⟩
    refine ⟨(j, coefs.getD j 0), ?_, ?_⟩
    · apply List.mem_enum_iff_getElem?.2
      rw [List.getElem?_eq_getElem hj, List.getD_eq_getElem _ _ hj]
    · rw [if_pos hpr]
      exact List.mem_map.2 ⟨r, hr, rfl⟩

lemma coefWrites_row {rows : List ℤ} {colBase : ℤ} {coefs : List ℚ}
    {w : Wr} (h : w ∈ coefWrites rows colBase coefs) : wRow w ∈ rows := by
  rcases mem_coefWrites.1 h with ⟨j, hj, hpr, r, hr, rfl⟩
  simpa [wRow]

/-! ## Accessor identities for the initializers -/

lemma initTwoPatch_nbf0 (inp : TwoPatchInput) :
    (initTwoPatch inp).nbf0 =
      offs 0 (inp.ifaces.map
        (interfaceCountTP inp.neumann inp.geo inp.innerKnotMulti)) := rfl

lemma initTwoPatch_nbf1 (inp : TwoPatchInput) :
    (initTwoPatch inp).nbf1 =
      shiftT (offs 0 (inp.bdries.map (edgeCountTP inp.neumann)))
        (lastD (initTwoPatch inp).nbf0) := rfl

lemma initTwoPatch_nbf2 (inp : TwoPatchInput) :
    (initTwoPatch inp).nbf2 =
      shiftT (offs 0 (inp.verts.map (vertexDofCountTP inp.neumann)))
        (lastD (initTwoPatch inp).nbf1) := rfl

lemma initTwoPatch_nbf3 (inp : TwoPatchInput) :
    (initTwoPatch inp).nbf3 =
      shiftT (offs 0 (inp.bdries.map (bdyEdgeCountTP inp.neumann)))
        (lastD (initTwoPatch inp).nbf2) := rfl

lemma initTwoPatch_nbf4 (inp : TwoPatchInput) :
    (initTwoPatch inp).nbf4 =
      shiftT (offs 0 (inp.verts.enum.map
          (fun p => vertexBdyCountTP inp.neumann (kinksOf inp).1
            (kinksOf inp).2 p.1 p.2)))
        (lastD (initTwoPatch inp).nbf3) := rfl

lemma initTwoPatch_nbf5 (inp : TwoPatchInput) :
    (initTwoPatch inp).nbf5 = offs 0 inp.patchSizes0 := rfl

lemma initTwoPatch_nbf6 (inp : TwoPatchInput) :
    (initTwoPatch inp).nbf6 =
      (if ¬inp.isogeometric ∧ inp.mbCount = 2 then
        offs (lastD (offs 0 inp.patchSizes0)) inp.patchSizes1
      else if inp.isogeometric then offs 0 inp.patchSizes0
      else List.replicate (inp.patchSizes0.length + 1) 0) := rfl

lemma initTwoPatch_kinks (inp : TwoPatchInput) :
    (initTwoPatch inp).kink0 = (kinksOf inp).1 ∧
    (initTwoPatch inp).kink1 = (kinksOf inp).2 := ⟨rfl, rfl⟩

lemma initGeneral_nbf0 (inp : GeneralInput) :
    (initGeneral inp).nbf0 = offs 0 (inp.ifacesG.map interfaceCountGen) := rfl

lemma initGeneral_nbf1 (inp : GeneralInput) :
    (initGeneral inp).nbf1 =
      shiftT (offs 0 (inp.bdriesG.map (edgeCountGen inp.neumann)))
        (lastD (initGeneral inp).nbf0) := rfl

lemma initGeneral_nbf2 (inp : GeneralInput) :
    (initGeneral inp).nbf2 =
      shiftT (offs 0 (inp.verts.map vertexDofCountGen))
        (lastD (initGeneral inp).nbf1) := rfl

lemma initGeneral_nbf3 (inp : GeneralInput) :
    (initGeneral inp).nbf3 =
      shiftT (offs 0 (inp.bdriesG.map (bdyEdgeCountGen inp.neumann)))
        (lastD (initGeneral inp).nbf2) := rfl

lemma initGeneral_nbf4 (inp : GeneralInput) :
    (initGeneral inp).nbf4 =
      shiftT (offs 0 (inp.verts.map vertexBdyCountGen))
        (lastD (initGeneral inp).nbf3) := rfl

lemma initGeneral_nbf5 (inp : GeneralInput) :
    (initGeneral inp).nbf5 = offs 0 inp.patchSizes0 := rfl

lemma initGeneral_nbf6 (inp : GeneralInput) :
    (initGeneral inp).nbf6 =
      (if inp.isogeometric then offs 0 inp.patchSizes0
      else List.replicate (inp.patchSizes0.length + 1) 0) := rfl

lemma foldl_const_acc {α β : Type} (k : β) (l : List α) :
    l.foldl (fun _ _ => k) k = k := by
  induction l with
  | nil => rfl
  | cons a t ih => exact ih

lemma kinksOf_of_ne_nil (inp : TwoPatchInput) (h : inp.ifaces ≠ []) :
    kinksOf inp = (kink0Of inp.geo, kink1Of inp.geo) := by
  unfold kinksOf
  cases hl : inp.ifaces with
  | nil => exact absurd hl h
  | cons d ds => exact foldl_const_acc _ ds

/-! ## Nonnegativity of per-vertex counts -/

lemma vertexDofCountTP_nonneg (n : Bool) (v : VertexData) :
    0 ≤ vertexDofCountTP n v := by
  unfold vertexDofCountTP
  split_ifs <;> norm_num

lemma vertexBdyCountTP_nonneg (n k0 k1 : Bool) (i : ℕ) (v : VertexData) :
    0 ≤ vertexBdyCountTP n k0 k1 i v := by
  unfold vertexBdyCountTP
  split_ifs <;> norm_num

lemma vertexDofCountGen_nonneg (v : VertexData) : 0 ≤ vertexDofCountGen v := by
  unfold vertexDofCountGen
  split_ifs <;> norm_num

lemma vertexBdyCountGen_nonneg (v : VertexData) : 0 ≤ vertexBdyCountGen v := by
  unfold vertexBdyCountGen
  split_ifs <;> norm_num

lemma tol_eq : (10 : ℚ) / 10 ^ 25 = 1 / 10 ^ 24 := by norm_num

lemma coefWrites_val {rows : List ℤ} {colBase : ℤ} {coefs : List ℚ}
    {w : Wr} (h : w ∈ coefWrites rows colBase coefs) :
    wVal w * wVal w > 1 / 10 ^ 24 := by
  rcases mem_coefWrites.1 h with ⟨j, hj, hpr, r, hr, rfl⟩
  have := (pruneOK_iff _).1 hpr
  rw [tol_eq] at this
  simpa [wVal]

lemma interfaceRowsTP_ne_nil (plusInt : ℤ) (k0 k1 : Bool)
    (r41 r43 r0i bfID : ℤ) :
    interfaceRowsTP plusInt k0 k1 r41 r43 r0i bfID ≠ [] := by
  unfold interfaceRowsTP
  by_cases h1 : bfID = 0 ∨ bfID = plusInt - 1 ∨ bfID = plusInt ∨
    bfID = 2 * plusInt - 2
  · rw [if_pos h1]
    by_cases hc1 : bfID = 0 ∨ bfID = plusInt
    · rw [if_pos hc1]
      simp
    · rw [if_neg hc1]
      have hc2 : bfID = plusInt - 1 ∨ bfID = 2 * plusInt - 2 := by tauto
      rw [if_pos hc2]
      simp
  · rw [if_neg h1]
    split_ifs <;> simp

lemma interfaceRows_ne_nil (sys : G1Sys) (iID : ℕ) (bfID : ℤ) :
    interfaceRows sys iID bfID ≠ [] := by
  unfold interfaceRows
  split_ifs
  · exact interfaceRowsTP_ne_nil _ _ _ _ _ _ _
  · simp

lemma kinkTest_eq_false {v w : ℚ × ℚ} (h : detSq v w ≤ 1 / 10 ^ 25) :
    kinkTest v w = false := by
  simp only [kinkTest, decide_eq_false_iff_not]
  exact not_lt.2 h

lemma kinkTest_eq_true {v w : ℚ × ℚ} (h : detSq v w > 1 / 10 ^ 25) :
    kinkTest v w = true := by
  simp only [kinkTest, decide_eq_true_eq]
  exact h

lemma kink0Of_tpInpA : kink0Of tpInpA.geo = false := by
  apply kinkTest_eq_false
  show detSq (1, 0) (1, 0) ≤ 1 / 10 ^ 25
  simp only [detSq]
  norm_num

lemma kink1Of_tpInpA : kink1Of tpInpA.geo = false := by
  apply kinkTest_eq_false
  show detSq (1, 0) (1, 0) ≤ 1 / 10 ^ 25
  simp only [detSq]
  norm_num

lemma kink0Of_tpInpB : kink0Of tpInpB.geo = true := by
  apply kinkTest_eq_true
  show detSq (1, 0) (0, 1) > 1 / 10 ^ 25
  simp only [detSq]
  norm_num

lemma kink1Of_tpInpB : kink1Of tpInpB.geo = false := by
  apply kinkTest_eq_false
  show detSq (1, 0) (1, 0) ≤ 1 / 10 ^ 25
  simp only [detSq]
  norm_num

lemma pruneOK_one : pruneOK 1 = true := by
  simp only [pruneOK, decide_eq_true_eq]
  norm_num

lemma pruneOK_1e12 : pruneOK ((1 : ℚ) / 10 ^ 12) = false := by
  simp only [pruneOK, decide_eq_false_iff_not]
  norm_num

/-! ## Claim C1 -/

/-- C1, counterexample to the claim as stated: the pruning guard of the
source is `coef*coef > 10e-25`, i.e. the threshold is `1e-24`, not
`1e-25`.  A coefficient of squared magnitude exactly `1e-24` strictly
exceeds `1e-25`, yet `insertBoundaryEdge` performs no write for it at
all, so it does not appear in `D`. -/
theorem c1_counterexample :
    ((1 : ℚ) / 10 ^ 12) * ((1 : ℚ) / 10 ^ 12) = 1 / 10 ^ 24 ∧
    ((1 : ℚ) / 10 ^ 24) > 1 / 10 ^ 25 ∧
    insertBoundaryEdgeW sysEx 0 0 0 [(1 : ℚ) / 10 ^ 12] = [] := by
  refine ⟨by norm_num, by norm_num, ?_⟩
  simp only [insertBoundaryEdgeW, coefWrites, List.enum_cons, List.enumFrom,
    List.flatMap_cons, List.flatMap_nil, pruneOK_1e12, Bool.false_eq_true,
    if_false, List.append_nil]

/-- C1 (amended): for every insertion operation the stored/pruned
threshold on the squared magnitude is `10e-25 = 1e-24`: a coefficient
whose square is at most `1e-24` is never stored in `D` (no write carries
such a value), and a coefficient whose square strictly exceeds `1e-24`
is stored; in particular squared magnitudes `1e-25` and `1e-24` do not
appear and `1e-23` does. -/
theorem c1_pruning_threshold (sys : G1Sys) (pA pB itemPatch iID bID vID : ℕ)
    (bfID nDofs : ℤ) (coefs coefs0 coefs1 : List ℚ)
    (patches : List (ℕ × List ℚ)) :
    (∀ w ∈ insertInterfaceEdgeW sys pA pB iID bfID coefs0 coefs1,
      wVal w * wVal w > 1 / 10 ^ 24) ∧
    (∀ w ∈ insertBoundaryEdgeW sys itemPatch bID bfID coefs,
      wVal w * wVal w > 1 / 10 ^ 24) ∧
    (∀ w ∈ insertVertexW sys patches vID nDofs bfID,
      wVal w * wVal w > 1 / 10 ^ 24) ∧
    (∀ j : ℕ, j < coefs0.length →
      coefs0.getD j 0 * coefs0.getD j 0 > 1 / 10 ^ 24 →
      ∃ w ∈ insertInterfaceEdgeW sys pA pB iID bfID coefs0 coefs1,
        wVal w = coefs0.getD j 0 ∧ wCol w = gD sys.nbf6 pA + (j : ℤ)) ∧
    (∀ j : ℕ, j < coefs.length →
      coefs.getD j 0 * coefs.getD j 0 > 1 / 10 ^ 24 →
      ((boundaryRow sys bID bfID, gD sys.nbf5 itemPatch + (j : ℤ),
          coefs.getD j 0) : Wr)
        ∈ insertBoundaryEdgeW sys itemPatch bID bfID coefs) ∧
    (∀ p ∈ patches, ∀ j : ℕ, j < p.2.length →
      p.2.getD j 0 * p.2.getD j 0 > 1 / 10 ^ 24 →
      ((vertexRow sys vID nDofs bfID, gD sys.nbf5 p.1 + (j : ℤ),
          p.2.getD j 0) : Wr)
        ∈ insertVertexW sys patches vID nDofs bfID) := by
  refine ⟨?_, ?_, ?_, ?_, ?_, ?_⟩
  · intro w hw
    unfold insertInterfaceEdgeW at hw
    rcases List.mem_append.1 hw with h | h
    · exact coefWrites_val h
    · exact coefWrites_val h
  · intro w hw
    exact coefWrites_val hw
  · intro w hw
    unfold insertVertexW at hw
    rcases List.mem_flatMap.1 hw with ⟨p, hp, h⟩
    exact coefWrites_val h
  · intro j hj hbig
    obtain ⟨r, hr⟩ := List.exists_mem_of_ne_nil _ (interfaceRows_ne_nil sys iID bfID)
    refine ⟨(r, gD sys.nbf6 pA + (j : ℤ), coefs0.getD j 0), ?_, rfl, rfl⟩
    unfold insertInterfaceEdgeW
    apply List.mem_append_left
    refine mem_coefWrites.2 ⟨j, hj, ?_, r, hr, rfl⟩
    rw [pruneOK_iff, tol_eq]
    exact hbig
  · intro j hj hbig
    unfold insertBoundaryEdgeW
    refine mem_coefWrites.2 ⟨j, hj, ?_, boundaryRow sys bID bfID, by simp, rfl⟩
    rw [pruneOK_iff, tol_eq]
    exact hbig
  · intro p hp j hj hbig
    unfold insertVertexW
    refine List.mem_flatMap.2 ⟨p, hp, ?_⟩
    refine mem_coefWrites.2 ⟨j, hj, ?_, vertexRow sys vID nDofs bfID, by simp, rfl⟩
    rw [pruneOK_iff, tol_eq]
    exact hbig

/-- Witness for C1: a coefficient of squared magnitude `1e-22 > 1e-24` is
stored by `insertBoundaryEdge`. -/
theorem c1_pruning_threshold_witness :
    ((1 : ℚ) / 10 ^ 11) * ((1 : ℚ) / 10 ^ 11) > 1 / 10 ^ 24 ∧
    ((boundaryRow sysEx 0 0, gD sysEx.nbf5 0 + ((0 : ℕ) : ℤ),
        [(1 : ℚ) / 10 ^ 11].getD 0 0) : Wr)
      ∈ insertBoundaryEdgeW sysEx 0 0 0 [(1 : ℚ) / 10 ^ 11] := by
  refine ⟨by norm_num, ?_⟩
  exact (c1_pruning_threshold sysEx 0 0 0 0 0 0 0 0
    [(1 : ℚ) / 10 ^ 11] [] [] []).2.2.2.2.1 0 (by norm_num) (by norm_num)

/-! ## Claim C2 -/

/-- C2, counterexample to the claim as stated: in the general initializer
the interface allocation is `2(m_p-m_r-1)(m_n-1) + 2 m_p - 9`, i.e. the
raw count minus 10, not minus 4.  With `m_p = 5`, `m_r = 1` (fixed in
that initializer), `m_n = 2`, no Neumann mode and no kink, the table
entry is `7`, while the claim demands `raw - 4 = 13`. -/
theorem c2_counterexample :
    gD (initGeneral genInpC2).nbf0 1 - gD (initGeneral genInpC2).nbf0 0 = 7 ∧
    (2 * (5 - 1 - 1) * (2 - 1) + 2 * 5 + 1 - 4 : ℤ) = 13 ∧ (7 : ℤ) ≠ 13 := by
  refine ⟨by decide, by decide, by decide⟩

/-- C2 (amended): the two-patch initializer allocates per interface the
raw count `2(m_p-m_r-1)(m_n-1) + 2 m_p + 1` minus 4 (8 in Neumann mode),
minus 1 more per detected kink at either end, plus `2*numInnerKnot`; the
general initializer instead allocates the raw count minus 10 (with
`m_r = 1` fixed), with no Neumann or kink adjustment. -/
theorem c2_interface_allocation :
    (∀ inp : TwoPatchInput, ∀ i : ℕ, i < inp.ifaces.length →
      gD (initTwoPatch inp).nbf0 (i + 1) - gD (initTwoPatch inp).nbf0 i =
        2 * (mpOf (inp.ifaces.getD i ⟨0, 0, 0, 0, 0⟩) -
              mrOf (inp.ifaces.getD i ⟨0, 0, 0, 0, 0⟩) - 1) *
            (mnOf (inp.ifaces.getD i ⟨0, 0, 0, 0, 0⟩) - 1) +
          2 * mpOf (inp.ifaces.getD i ⟨0, 0, 0, 0, 0⟩) + 1 -
          (if inp.neumann then 8 else 4) -
          (if kink0Of inp.geo then 1 else 0) -
          (if kink1Of inp.geo then 1 else 0) +
          2 * numInnerKnot inp.innerKnotMulti
            (mpOf (inp.ifaces.getD i ⟨0, 0, 0, 0, 0⟩))
            (mrOf (inp.ifaces.getD i ⟨0, 0, 0, 0, 0⟩))) ∧
    (∀ inp : GeneralInput, ∀ i : ℕ, i < inp.ifacesG.length →
      gD (initGeneral inp).nbf0 (i + 1) - gD (initGeneral inp).nbf0 i =
        2 * ((inp.ifacesG.getD i ⟨0, 0⟩).maxDeg - 1 - 1) *
            ((inp.ifacesG.getD i ⟨0, 0⟩).numElems - 1) +
          2 * (inp.ifacesG.getD i ⟨0, 0⟩).maxDeg + 1 - 10) := by
  constructor
  · intro inp i hi
    rw [initTwoPatch_nbf0]
    rw [gD_offs_sub 0 _ i (by simpa using hi)]
    rw [show (inp.ifaces.map
        (interfaceCountTP inp.neumann inp.geo inp.innerKnotMulti)).getD i 0 =
        interfaceCountTP inp.neumann inp.geo inp.innerKnotMulti
          (inp.ifaces.getD i ⟨0, 0, 0, 0, 0⟩) from
      getD_map _ _ _ _ hi]
    unfold interfaceCountTP numIntBdy
    ring
  · intro inp i hi
    rw [initGeneral_nbf0]
    rw [gD_offs_sub 0 _ i (by simpa using hi)]
    rw [show (inp.ifacesG.map interfaceCountGen).getD i 0 =
        interfaceCountGen (inp.ifacesG.getD i ⟨0, 0⟩) from
      getD_map _ _ _ _ hi]
    unfold interfaceCountGen
    ring

/-- Witness for C2: both allocation formulas evaluated on concrete
configurations. -/
theorem c2_interface_allocation_witness :
    (0 : ℕ) < tpInpA.ifaces.length ∧
    gD (initTwoPatch tpInpA).nbf0 (0 + 1) - gD (initTwoPatch tpInpA).nbf0 0 = 1 ∧
    (0 : ℕ) < genInpC2.ifacesG.length ∧
    gD (initGeneral genInpC2).nbf0 (0 + 1) - gD (initGeneral genInpC2).nbf0 0 = 7 := by
  refine ⟨by decide, ?_, by decide, ?_⟩
  · rw [c2_interface_allocation.1 tpInpA 0 (by decide)]
    rw [kink0Of_tpInpA, kink1Of_tpInpA]
    show (2 * (mpOf ⟨2, 2, 2, 1, 1⟩ - mrOf ⟨2, 2, 2, 1, 1⟩ - 1) *
        (mnOf ⟨2, 2, 2, 1, 1⟩ - 1) + 2 * mpOf ⟨2, 2, 2, 1, 1⟩ + 1 -
        (if False then 8 else 4) - (if false = true then 1 else 0) -
        (if false = true then 1 else 0) +
        2 * numInnerKnot 0 (mpOf ⟨2, 2, 2, 1, 1⟩) (mrOf ⟨2, 2, 2, 1, 1⟩) : ℤ) = 1
    simp [mpOf, mrOf, mnOf, numInnerKnot]
  · rw [c2_interface_allocation.2 genInpC2 0 (by decide)]
    show (2 * (EdgeDataGen.maxDeg ⟨5, 2⟩ - 1 - 1) *
        (EdgeDataGen.numElems ⟨5, 2⟩ - 1) + 2 * EdgeDataGen.maxDeg ⟨5, 2⟩ + 1 -
        10 : ℤ) = 7
    norm_num

/-! ## Claim C3 -/

lemma shift_offs0 (l : List ℤ) (s : ℤ) : shiftT (offs 0 l) s = offs s l := by
  rw [shiftT_offs, zero_add]

lemma edgeCountTP_nonneg (n : Bool) (s : ℤ) (hs : 4 ≤ s) :
    0 ≤ edgeCountTP n s := by
  unfold edgeCountTP
  split_ifs <;> omega

lemma bdyEdgeCountTP_nonneg (n : Bool) (s : ℤ) (hs : 4 ≤ s) :
    0 ≤ bdyEdgeCountTP n s := by
  unfold bdyEdgeCountTP
  split_ifs <;> omega

/-- C3: after initialization (either initializer), all seven offset
tables are non-decreasing and consecutive categories in the chaining
order are linked: the last value of category k equals the first value of
category k+1 — provided every per-entity allocation is nonnegative (a
degenerate basis, e.g. a boundary edge with fewer than 4 functions,
would make an allocation negative). -/
theorem c3_tables_chained :
    (∀ inp : TwoPatchInput,
      (∀ d ∈ inp.ifaces,
        0 ≤ interfaceCountTP inp.neumann inp.geo inp.innerKnotMulti d) →
      (∀ s ∈ inp.bdries, (4 : ℤ) ≤ s) →
      (∀ s ∈ inp.patchSizes0, (0 : ℤ) ≤ s) →
      (∀ s ∈ inp.patchSizes1, (0 : ℤ) ≤ s) →
      tablesChained (initTwoPatch inp)) ∧
    (∀ inp : GeneralInput,
      (∀ d ∈ inp.ifacesG, 0 ≤ interfaceCountGen d) →
      (∀ d ∈ inp.bdriesG, 0 ≤ edgeCountGen inp.neumann d) →
      (∀ d ∈ inp.bdriesG, 0 ≤ bdyEdgeCountGen inp.neumann d) →
      (∀ s ∈ inp.patchSizes0, (0 : ℤ) ≤ s) →
      tablesChained (initGeneral inp)) := by
  constructor
  · intro inp hifc hbd hp0 hp1
    have h0nn : ∀ c ∈ inp.ifaces.map
        (interfaceCountTP inp.neumann inp.geo inp.innerKnotMulti), 0 ≤ c := by
      intro c hc
      rcases List.mem_map.1 hc with ⟨d, hd, rfl⟩
      exact hifc d hd
    have h1nn : ∀ c ∈ inp.bdries.map (edgeCountTP inp.neumann), 0 ≤ c := by
      intro c hc
      rcases List.mem_map.1 hc with ⟨s, hs, rfl⟩
      exact edgeCountTP_nonneg _ _ (hbd s hs)
    have h2nn : ∀ c ∈ inp.verts.map (vertexDofCountTP inp.neumann), 0 ≤ c := by
      intro c hc
      rcases List.mem_map.1 hc with ⟨v, hv, rfl⟩
      exact vertexDofCountTP_nonneg _ _
    have h3nn : ∀ c ∈ inp.bdries.map (bdyEdgeCountTP inp.neumann), 0 ≤ c := by
      intro c hc
      rcases List.mem_map.1 hc with ⟨s, hs, rfl⟩
      exact bdyEdgeCountTP_nonneg _ _ (hbd s hs)
    have h4nn : ∀ c ∈ inp.verts.enum.map
        (fun p => vertexBdyCountTP inp.neumann (kinksOf inp).1
          (kinksOf inp).2 p.1 p.2), 0 ≤ c := by
      intro c hc
      rcases List.mem_map.1 hc with ⟨p, hp, rfl⟩
      exact vertexBdyCountTP_nonneg _ _ _ _ _
    have e1 : (initTwoPatch inp).nbf1 =
        offs (lastD (initTwoPatch inp).nbf0)
          (inp.bdries.map (edgeCountTP inp.neumann)) := by
      rw [initTwoPatch_nbf1, shift_offs0]
    have e2 : (initTwoPatch inp).nbf2 =
        offs (lastD (initTwoPatch inp).nbf1)
          (inp.verts.map (vertexDofCountTP inp.neumann)) := by
      rw [initTwoPatch_nbf2, shift_offs0]
    have e3 : (initTwoPatch inp).nbf3 =
        offs (lastD (initTwoPatch inp).nbf2)
          (inp.bdries.map (bdyEdgeCountTP inp.neumann)) := by
      rw [initTwoPatch_nbf3, shift_offs0]
    have e4 : (initTwoPatch inp).nbf4 =
        offs (lastD (initTwoPatch inp).nbf3)
          (inp.verts.enum.map
            (fun p => vertexBdyCountTP inp.neumann (kinksOf inp).1
              (kinksOf inp).2 p.1 p.2)) := by
      rw [initTwoPatch_nbf4, shift_offs0]
    have hp0nn : ∀ c ∈ inp.patchSizes0, (0 : ℤ) ≤ c := hp0
    unfold tablesChained
    rw [e4, e3, e2, e1, initTwoPatch_nbf0, initTwoPatch_nbf5,
      initTwoPatch_nbf6]
    refine ⟨offs_ne_nil _ _, offs_ne_nil _ _, offs_ne_nil _ _,
      offs_ne_nil _ _, offs_ne_nil _ _,
      chain_le_offs _ _ h0nn, chain_le_offs _ _ h1nn, chain_le_offs _ _ h2nn,
      chain_le_offs _ _ h3nn, chain_le_offs _ _ h4nn,
      chain_le_offs _ _ hp0nn, ?_,
      (offs_head _ _).symm, (offs_head _ _).symm, (offs_head _ _).symm,
      (offs_head _ _).symm⟩
    split_ifs
    · exact chain_le_offs _ _ hp1
    · exact chain_le_offs _ _ hp0nn
    · exact chain_le_replicate _
  · intro inp hifc hed hbed hp0
    have h0nn : ∀ c ∈ inp.ifacesG.map interfaceCountGen, 0 ≤ c := by
      intro c hc
      rcases List.mem_map.1 hc with ⟨d, hd, rfl⟩
      exact hifc d hd
    have h1nn : ∀ c ∈ inp.bdriesG.map (edgeCountGen inp.neumann), 0 ≤ c := by
      intro c hc
      rcases List.mem_map.1 hc with ⟨d, hd, rfl⟩
      exact hed d hd
    have h2nn : ∀ c ∈ inp.verts.map vertexDofCountGen, 0 ≤ c := by
      intro c hc
      rcases List.mem_map.1 hc with ⟨v, hv, rfl⟩
      exact vertexDofCountGen_nonneg _
    have h3nn : ∀ c ∈ inp.bdriesG.map (bdyEdgeCountGen inp.neumann), 0 ≤ c := by
      intro c hc
      rcases List.mem_map.1 hc with ⟨d, hd, rfl⟩
      exact hbed d hd
    have h4nn : ∀ c ∈ inp.verts.map vertexBdyCountGen, 0 ≤ c := by
      intro c hc
      rcases List.mem_map.1 hc with ⟨v, hv, rfl⟩
      exact vertexBdyCountGen_nonneg _
    have e1 : (initGeneral inp).nbf1 =
        offs (lastD (initGeneral inp).nbf0)
          (inp.bdriesG.map (edgeCountGen inp.neumann)) := by
      rw [initGeneral_nbf1, shift_offs0]
    have e2 : (initGeneral inp).nbf2 =
        offs (lastD (initGeneral inp).nbf1)
          (inp.verts.map vertexDofCountGen) := by
      rw [initGeneral_nbf2, shift_offs0]
    have e3 : (initGeneral inp).nbf3 =
        offs (lastD (initGeneral inp).nbf2)
          (inp.bdriesG.map (bdyEdgeCountGen inp.neumann)) := by
      rw [initGeneral_nbf3, shift_offs0]
    have e4 : (initGeneral inp).nbf4 =
        offs (lastD (initGeneral inp).nbf3)
          (inp.verts.map vertexBdyCountGen) := by
      rw [initGeneral_nbf4, shift_offs0]
    unfold tablesChained
    rw [e4, e3, e2, e1, initGeneral_nbf0, initGeneral_nbf5, initGeneral_nbf6]
    refine ⟨offs_ne_nil _ _, offs_ne_nil _ _, offs_ne_nil _ _,
      offs_ne_nil _ _, offs_ne_nil _ _,
      chain_le_offs _ _ h0nn, chain_le_offs _ _ h1nn, chain_le_offs _ _ h2nn,
      chain_le_offs _ _ h3nn, chain_le_offs _ _ h4nn,
      chain_le_offs _ _ hp0, ?_,
      (offs_head _ _).symm, (offs_head _ _).symm, (offs_head _ _).symm,
      (offs_head _ _).symm⟩
    split_ifs
    · exact chain_le_offs _ _ hp0
    · exact chain_le_replicate _

/-- Witness for C3: the chained-table invariant holds on the concrete
two-patch and general configurations. -/
theorem c3_tables_chained_witness :
    ((∀ d ∈ tpInpA.ifaces,
        0 ≤ interfaceCountTP tpInpA.neumann tpInpA.geo tpInpA.innerKnotMulti d) ∧
      (∀ s ∈ tpInpA.bdries, (4 : ℤ) ≤ s) ∧
      tablesChained (initTwoPatch tpInpA)) ∧
    ((∀ d ∈ genInpEx.ifacesG, 0 ≤ interfaceCountGen d) ∧
      tablesChained (initGeneral genInpEx)) := by
  have hifc : ∀ d ∈ tpInpA.ifaces,
      0 ≤ interfaceCountTP tpInpA.neumann tpInpA.geo tpInpA.innerKnotMulti d := by
    intro d hd
    have hds : d = ⟨2, 2, 2, 1, 1⟩ := by
      simpa [tpInpA] using hd
    subst hds
    unfold interfaceCountTP numIntBdy
    rw [kink0Of_tpInpA, kink1Of_tpInpA]
    simp [tpInpA, mpOf, mrOf, mnOf, numInnerKnot]
  refine ⟨⟨hifc, by decide, ?_⟩, ⟨by decide, ?_⟩⟩
  · exact c3_tables_chained.1 tpInpA hifc (by decide) (by decide) (by decide)
  · exact c3_tables_chained.2 genInpEx (by decide) (by decide) (by decide)
      (by decide)

/-! ## Claim C4 -/

lemma mem_range'_two {b j : ℕ} :
    j ∈ List.range' 2 (b - 4) ↔ 2 ≤ j ∧ j < b - 2 := by
  rw [List.mem_range'_1]
  omega

lemma mod_div_of_tensor {du jz iz : ℤ} (hdu : 0 < du) (h0 : 0 ≤ iz)
    (h1 : iz < du) :
    (jz * du + iz) % du = iz ∧ (jz * du + iz) / du = jz := by
  have e : jz * du + iz = iz + du * jz := by ring
  constructor
  · rw [e, Int.add_mul_emod_self_left]
    exact Int.emod_eq_of_lt h0 h1
  · rw [e, Int.add_mul_ediv_left _ _ (by omega : du ≠ 0),
      Int.ediv_eq_zero_of_lt h0 h1]
    ring

lemma tensor_bound {du dv j i : ℤ} (hdu : 0 < du) (hj : j < dv - 2)
    (hi : i < du - 2) : j * du + i < du * dv := by
  nlinarith [mul_le_mul_of_nonneg_right (show j ≤ dv - 3 by omega)
    (le_of_lt hdu)]

lemma mem_finalizeInteriorW {sys : G1Sys} {dims : List (ℕ × ℕ)} {w : Wr} :
    w ∈ finalizeInteriorW sys dims ↔
      ∃ np : ℕ, np < dims.length ∧ ∃ j i : ℕ,
        2 ≤ j ∧ j < (dims.getD np (0, 0)).2 - 2 ∧
        2 ≤ i ∧ i < (dims.getD np (0, 0)).1 - 2 ∧
        w = (sys.dim_G1_Dofs + sys.dim_G1_Bdy +
              (gD sys.nbf5 np + (j : ℤ) * ((dims.getD np (0, 0)).1 : ℤ) +
                (i : ℤ)),
            gD sys.nbf5 np + (j : ℤ) * ((dims.getD np (0, 0)).1 : ℤ) +
              (i : ℤ),
            (1 : ℚ)) := by
  unfold finalizeInteriorW
  rw [List.mem_flatMap]
  constructor
  · rintro ⟨q, hq, hw⟩
    have hget := List.mem_enum_iff_getElem?.1 hq
    have hlt : q.1 < dims.length := (List.getElem?_eq_some.1 hget).1
    have hqd : dims.getD q.1 (0, 0) = q.2 := by
      rw [List.getD_eq_getElem?_getD, hget]
      rfl
    rw [List.mem_flatMap] at hw
    rcases hw with ⟨j, hj, hw⟩
    rcases List.mem_map.1 hw with ⟨i, hi, rfl⟩
    rw [mem_range'_two] at hj hi
    refine ⟨q.1, hlt, j, i, hj.1, by rw [hqd]; exact hj.2, hi.1,
      by rw [hqd]; exact hi.2, by rw [hqd]⟩
  · rintro ⟨np, hnp, j, i, hj1, hj2, hi1, hi2, rfl⟩
    refine ⟨(np, dims.getD np (0, 0)), ?_, ?_⟩
    · apply List.mem_enum_iff_getElem?.2
      rw [List.getElem?_eq_getElem hnp, List.getD_eq_getElem _ _ hnp]
    · rw [List.mem_flatMap]
      refine ⟨j, mem_range'_two.2 ⟨hj1, hj2⟩, ?_⟩
      exact List.mem_map.2 ⟨i, mem_range'_two.2 ⟨hi1, hi2⟩, rfl⟩

/-- C4: the interior loop of `finalize` inserts the diagonal entry
`D[dim_G1_Dofs + dim_G1_Bdy + c, c] = 1` for exactly the strictly
interior columns `c` (tensor indices at least 2 away from every patch
edge), and every inserted entry lies in the trailing block of `dim_K`
rows, whose size is `dim_K` by construction of `D`. -/
theorem c4_finalize_interior (sys : G1Sys) (dims : List (ℕ × ℕ))
    (hnbf5 : sys.nbf5 = offs 0 (dims.map (fun d => ((d.1 : ℤ) * (d.2 : ℤ)))))
    (hK : lastD sys.nbf5 ≤ sys.dim_K) :
    (∀ c : ℤ,
      ((sys.dim_G1_Dofs + sys.dim_G1_Bdy + c, c, (1 : ℚ)) : Wr)
          ∈ finalizeInteriorW sys dims ↔ isInteriorCol sys.nbf5 dims c) ∧
    (∀ w ∈ finalizeInteriorW sys dims,
      wVal w = 1 ∧ wRow w = sys.dim_G1_Dofs + sys.dim_G1_Bdy + wCol w ∧
      0 ≤ wCol w ∧ wCol w < sys.dim_K) := by
  have hsz : ∀ c ∈ dims.map (fun d => ((d.1 : ℤ) * (d.2 : ℤ))), 0 ≤ c := by
    intro c hc
    rcases List.mem_map.1 hc with ⟨d, hd, rfl⟩
    positivity
  have hcol : ∀ np : ℕ, np < dims.length → ∀ j i : ℕ,
      2 ≤ j → j < (dims.getD np (0, 0)).2 - 2 →
      2 ≤ i → i < (dims.getD np (0, 0)).1 - 2 →
      0 ≤ gD sys.nbf5 np + (j : ℤ) * ((dims.getD np (0, 0)).1 : ℤ) + (i : ℤ) ∧
      gD sys.nbf5 np + (j : ℤ) * ((dims.getD np (0, 0)).1 : ℤ) + (i : ℤ) <
        sys.dim_K := by
    intro np hnp j i hj1 hj2 hi1 hi2
    have hdu : (0 : ℤ) < ((dims.getD np (0, 0)).1 : ℤ) := by
      have : 4 < (dims.getD np (0, 0)).1 := by omega
      omega
    have hoff : (0 : ℤ) ≤ gD sys.nbf5 np := by
      rw [hnbf5]
      exact head_le_gD 0 _ hsz np (by simp [offs_length]; omega)
    have hji : (0 : ℤ) ≤ (j : ℤ) * ((dims.getD np (0, 0)).1 : ℤ) + (i : ℤ) := by
      positivity
    constructor
    · omega
    · have hsub : gD sys.nbf5 (np + 1) - gD sys.nbf5 np =
          ((dims.getD np (0, 0)).1 : ℤ) * ((dims.getD np (0, 0)).2 : ℤ) := by
        rw [hnbf5, gD_offs_sub 0 _ np (by simpa using hnp)]
        exact getD_map _ _ _ _ hnp
      have hb : (j : ℤ) * ((dims.getD np (0, 0)).1 : ℤ) + (i : ℤ) <
          ((dims.getD np (0, 0)).1 : ℤ) * ((dims.getD np (0, 0)).2 : ℤ) := by
        apply tensor_bound hdu
        · omega
        · omega
      have hlast : gD sys.nbf5 (np + 1) ≤ lastD sys.nbf5 := by
        rw [hnbf5]
        exact gD_le_lastD 0 _ hsz (np + 1) (by simp [offs_length]; omega)
      omega
  constructor
  · intro c
    rw [mem_finalizeInteriorW]
    constructor
    · rintro ⟨np, hnp, j, i, hj1, hj2, hi1, hi2, heq⟩
      have h2 : c = gD sys.nbf5 np +
          (j : ℤ) * ((dims.getD np (0, 0)).1 : ℤ) + (i : ℤ) :=
        congrArg (fun w : Wr => w.2.1) heq
      have hdu : (0 : ℤ) < ((dims.getD np (0, 0)).1 : ℤ) := by omega
      have hiN : (0 : ℤ) ≤ (i : ℤ) := by positivity
      have hiduZ : (i : ℤ) < ((dims.getD np (0, 0)).1 : ℤ) := by omega
      have hL : c - gD sys.nbf5 np =
          (j : ℤ) * ((dims.getD np (0, 0)).1 : ℤ) + (i : ℤ) := by omega
      have hmd := @mod_div_of_tensor ((dims.getD np (0, 0)).1 : ℤ) (j : ℤ)
        (i : ℤ) hdu hiN hiduZ
      refine ⟨np, hnp, ?_, ?_, ?_, ?_, ?_, ?_⟩
      · have : (0 : ℤ) ≤ (j : ℤ) * ((dims.getD np (0, 0)).1 : ℤ) + (i : ℤ) := by
          positivity
        omega
      · have hb := @tensor_bound ((dims.getD np (0, 0)).1 : ℤ)
          ((dims.getD np (0, 0)).2 : ℤ) (j : ℤ) (i : ℤ) hdu (by omega)
          (by omega)
        omega
      · rw [hL, hmd.1]
        omega
      · rw [hL, hmd.1]
        omega
      · rw [hL, hmd.2]
        omega
      · rw [hL, hmd.2]
        omega
    · rintro ⟨np, hnp, hle, hlt, hm1, hm2, hd1, hd2⟩
      have hdu : (0 : ℤ) < ((dims.getD np (0, 0)).1 : ℤ) := by
        rcases Int.lt_or_le 0 ((dims.getD np (0, 0)).1 : ℤ) with h | h
        · exact h
        · rw [Int.emod_eq_of_lt] at hm2 <;> omega
      have hsplit := Int.ediv_add_emod (c - gD sys.nbf5 np)
        ((dims.getD np (0, 0)).1 : ℤ)
      have hmodlt := Int.emod_lt_of_pos (c - gD sys.nbf5 np) hdu
      have hmodnn := Int.emod_nonneg (c - gD sys.nbf5 np)
        (by omega : ((dims.getD np (0, 0)).1 : ℤ) ≠ 0)
      set jz := (c - gD sys.nbf5 np) / ((dims.getD np (0, 0)).1 : ℤ) with hjzdef
      set iz := (c - gD sys.nbf5 np) % ((dims.getD np (0, 0)).1 : ℤ) with hizdef
      have hjzc : ((jz.toNat : ℤ)) = jz := Int.toNat_of_nonneg (by omega)
      have hizc : ((iz.toNat : ℤ)) = iz := Int.toNat_of_nonneg (by omega)
      have hc : c = gD sys.nbf5 np +
          ((jz.toNat : ℕ) : ℤ) * ((dims.getD np (0, 0)).1 : ℤ) +
          ((iz.toNat : ℕ) : ℤ) := by
        rw [hjzc, hizc, mul_comm]
        omega
      have hb1 : 2 ≤ jz.toNat := by omega
      have hb2 : jz.toNat < (dims.getD np (0, 0)).2 - 2 := by omega
      have hb3 : 2 ≤ iz.toNat := by omega
      have hb4 : iz.toNat < (dims.getD np (0, 0)).1 - 2 := by omega
      exact ⟨np, hnp, jz.toNat, iz.toNat, hb1, hb2, hb3, hb4, by rw [hc]⟩
  · intro w hw
    rcases mem_finalizeInteriorW.1 hw with ⟨np, hnp, j, i, hj1, hj2, hi1, hi2, rfl⟩
    have hc := hcol np hnp j i hj1 hj2 hi1 hi2
    exact ⟨rfl, rfl, hc.1, hc.2⟩

/-- Witness for C4: on the concrete one-patch 5x5 configuration the
centre column 12 (tensor indices 2,2) receives its interior identity
entry. -/
theorem c4_finalize_interior_witness :
    sysEx.nbf5 = offs 0 ([((5 : ℕ), (5 : ℕ))].map
      (fun d => ((d.1 : ℤ) * (d.2 : ℤ)))) ∧
    lastD sysEx.nbf5 ≤ sysEx.dim_K ∧
    ((sysEx.dim_G1_Dofs + sysEx.dim_G1_Bdy + 12, 12, (1 : ℚ)) : Wr)
      ∈ finalizeInteriorW sysEx [(5, 5)] := by
  refine ⟨by decide, by decide, ?_⟩
  apply ((c4_finalize_interior sysEx [(5, 5)] (by decide) (by decide)).1 12).2
  exact ⟨0, by decide, by decide, by decide, by decide, by decide, by decide,
    by decide⟩

/-! ## Claim C5 -/

lemma selBoundary_mul_apply {R C : ℕ} (dDofs dBdy : ℕ)
    (D : Matrix (Fin R) (Fin C) ℚ) (r : Fin R) (c : Fin C) :
    (selBoundaryFin R dDofs dBdy * D) r c =
      if dDofs ≤ (r : ℕ) ∧ (r : ℕ) < dDofs + dBdy then D r c else 0 := by
  rw [Matrix.mul_apply]
  rw [Finset.sum_eq_single r]
  · unfold selBoundaryFin
    by_cases h : dDofs ≤ (r : ℕ) ∧ (r : ℕ) < dDofs + dBdy
    · simp [h]
    · simp [h]
  · intro k _ hk
    unfold selBoundaryFin
    simp [(Ne.symm hk : r ≠ k)]
  · intro h
    exact absurd (Finset.mem_univ r) h

lemma mg1Fin_apply_emb {R : ℕ} (dDofs dBdy : ℕ) (g : Fin dBdy → ℚ)
    (b : Fin dBdy) (h : dDofs + (b : ℕ) < R) :
    mg1Fin R dDofs dBdy g ⟨dDofs + (b : ℕ), h⟩ = g b := by
  unfold mg1Fin
  rw [dif_pos ⟨Nat.le_add_right dDofs (b : ℕ),
    Nat.add_lt_add_left b.isLt dDofs⟩]
  congr 1
  exact Fin.ext (by simp)

lemma boundary_transpose_mulVec {R C : ℕ} (dDofs dBdy : ℕ)
    (hRB : dDofs + dBdy ≤ R) (D : Matrix (Fin R) (Fin C) ℚ)
    (g : Fin dBdy → ℚ) :
    ((selBoundaryFin R dDofs dBdy * D).transpose).mulVec
        (mg1Fin R dDofs dBdy g) =
      ((boundaryBlockSpec dDofs dBdy hRB D).transpose).mulVec g := by
  funext c
  show ∑ r : Fin R, (selBoundaryFin R dDofs dBdy * D).transpose c r *
      mg1Fin R dDofs dBdy g r =
    ∑ b : Fin dBdy, (boundaryBlockSpec dDofs dBdy hRB D).transpose c b * g b
  have hemb : ∀ b : Fin dBdy, dDofs + (b : ℕ) < R := fun b => by omega
  set e : Fin dBdy → Fin R := fun b => ⟨dDofs + (b : ℕ), hemb b⟩ with he
  have hinj : ∀ x ∈ Finset.univ, ∀ y ∈ Finset.univ, e x = e y → x = y := by
    intro x _ y _ hxy
    have : dDofs + (x : ℕ) = dDofs + (y : ℕ) := congrArg Fin.val hxy
    exact Fin.ext (by omega)
  have hzero : ∀ r ∈ (Finset.univ : Finset (Fin R)),
      r ∉ Finset.image e Finset.univ →
      (selBoundaryFin R dDofs dBdy * D).transpose c r *
        mg1Fin R dDofs dBdy g r = 0 := by
    intro r _ hr
    have hnot : ¬(dDofs ≤ (r : ℕ) ∧ (r : ℕ) < dDofs + dBdy) := by
      intro hP
      apply hr
      refine Finset.mem_image.2 ⟨⟨(r : ℕ) - dDofs, by omega⟩, Finset.mem_univ _, ?_⟩
      exact Fin.ext (by simp [he]; omega)
    rw [Matrix.transpose_apply, selBoundary_mul_apply, if_neg hnot, zero_mul]
  rw [← Finset.sum_subset (Finset.subset_univ (Finset.image e Finset.univ))
    hzero]
  rw [Finset.sum_image hinj]
  apply Finset.sum_congr rfl
  intro b _
  have hP : dDofs ≤ dDofs + (b : ℕ) ∧ dDofs + (b : ℕ) < dDofs + dBdy :=
    ⟨by omega, by omega⟩
  show (selBoundaryFin R dDofs dBdy * D).transpose c ⟨dDofs + (b : ℕ), hemb b⟩ *
      mg1Fin R dDofs dBdy g ⟨dDofs + (b : ℕ), hemb b⟩ =
    (boundaryBlockSpec dDofs dBdy hRB D).transpose c b * g b
  rw [Matrix.transpose_apply, selBoundary_mul_apply, if_pos hP,
    mg1Fin_apply_emb dDofs dBdy g b (hemb b), Matrix.transpose_apply]
  rfl

/-- C5: `solve` forms `A = D_0 K D_0^t` and
`F = D_0 f - D_0 K D_boundary^t g`, with `g` the stored boundary value
vector (the boundary slice of `m_g1`), and returns the solution vector
produced by the external sparse solver on `A x = F`. -/
theorem c5_solve_schur {R C : ℕ} (dDofs dBdy : ℕ) (hRB : dDofs + dBdy ≤ R)
    (D D0 : Matrix (Fin R) (Fin C) ℚ) (g : Fin dBdy → ℚ)
    (solver : Matrix (Fin R) (Fin R) ℚ → (Fin R → ℚ) → (Fin R → ℚ) × Bool)
    (K : Matrix (Fin C) (Fin C) ℚ) (f : Fin C → ℚ) :
    solveG1 D0 (selBoundaryFin R dDofs dBdy * D) (mg1Fin R dDofs dBdy g)
        solver K f =
      (solver (D0 * K * D0.transpose)
        (FSpec dDofs dBdy hRB D0 D K f g)).1 := by
  unfold solveG1 FSpec
  rw [← Matrix.mulVec_mulVec (mg1Fin R dDofs dBdy g) (D0 * K)
    ((selBoundaryFin R dDofs dBdy * D).transpose)]
  rw [boundary_transpose_mulVec dDofs dBdy hRB D g]
  rw [Matrix.mulVec_mulVec]

/-- Witness for C5 on a concrete 2-row, 1-column system. -/
theorem c5_solve_schur_witness :
    1 + 1 ≤ 2 ∧
    solveG1 D0ex (selBoundaryFin 2 1 1 * Dex) (mg1Fin 2 1 1 gex) solverEx
        Kex fex =
      (solverEx (D0ex * Kex * D0ex.transpose)
        (FSpec 1 1 (by norm_num) D0ex Dex Kex fex gex)).1 :=
  ⟨by norm_num,
    c5_solve_schur 1 1 (by norm_num) Dex D0ex gex solverEx Kex fex⟩

/-! ## Claim C8 -/

/-- C8, counterexample to the claim as stated: `solve` never consults the
solver's convergence status.  With a solver that reports non-convergence
(`info` flag false) and returns its best iterate, `solve` silently
returns that non-converged vector as an ordinary result — nothing is
surfaced to the caller. -/
theorem c8_counterexample :
    (badSolver (D0ex * Kex * D0ex.transpose)
        (D0ex.mulVec fex -
          (D0ex * Kex * (selBoundaryFin 2 1 1 * Dex).transpose).mulVec
            (mg1Fin 2 1 1 gex))).2 = false ∧
    solveG1 D0ex (selBoundaryFin 2 1 1 * Dex) (mg1Fin 2 1 1 gex) badSolver
        Kex fex 0 = 42 :=
  ⟨rfl, rfl⟩

/-- C8 (amended): `solve` returns the external solver's output vector
unconditionally.  The convergence flag is never consulted: two solvers
that produce the same vector but different convergence flags yield
identical results, and the result is exactly the solver's vector for the
assembled system — no failure is surfaced, no retry or tolerance change
happens. -/
theorem c8_solver_result_unconditional {R C : ℕ}
    (D0 Db : Matrix (Fin R) (Fin C) ℚ) (mg1 : Fin R → ℚ)
    (s1 s2 : Matrix (Fin R) (Fin R) ℚ → (Fin R → ℚ) → (Fin R → ℚ) × Bool)
    (K : Matrix (Fin C) (Fin C) ℚ) (f : Fin C → ℚ)
    (hagree : ∀ A F, (s1 A F).1 = (s2 A F).1) :
    solveG1 D0 Db mg1 s1 K f = solveG1 D0 Db mg1 s2 K f ∧
    solveG1 D0 Db mg1 s1 K f =
      (s1 (D0 * K * D0.transpose)
        (D0.mulVec f - (D0 * K * Db.transpose).mulVec mg1)).1 :=
  ⟨hagree _ _, rfl⟩

/-- Witness for C8: the non-converged and converged solvers produce the
same returned vector. -/
theorem c8_solver_result_unconditional_witness :
    (∀ A F, (badSolver A F).1 = (goodFlagSolver A F).1) ∧
    solveG1 D0ex (selBoundaryFin 2 1 1 * Dex) (mg1Fin 2 1 1 gex) badSolver
        Kex fex =
      solveG1 D0ex (selBoundaryFin 2 1 1 * Dex) (mg1Fin 2 1 1 gex)
        goodFlagSolver Kex fex :=
  ⟨fun _ _ => rfl,
    (c8_solver_result_unconditional D0ex (selBoundaryFin 2 1 1 * Dex)
      (mg1Fin 2 1 1 gex) badSolver goodFlagSolver Kex fex
      (fun _ _ => rfl)).1⟩

/-! ## Claim C6 -/

lemma initTwoPatch_nbf0_diff (inp : TwoPatchInput) (i : ℕ)
    (hi : i < inp.ifaces.length) :
    gD (initTwoPatch inp).nbf0 (i + 1) - gD (initTwoPatch inp).nbf0 i =
      interfaceCountTP inp.neumann inp.geo inp.innerKnotMulti
        (inp.ifaces.getD i ⟨0, 0, 0, 0, 0⟩) := by
  rw [initTwoPatch_nbf0, gD_offs_sub 0 _ i (by simpa using hi)]
  exact getD_map _ _ _ _ hi

lemma initTwoPatch_nbf4_diff (inp : TwoPatchInput) (i : ℕ)
    (hi : i < inp.verts.length) :
    gD (initTwoPatch inp).nbf4 (i + 1) - gD (initTwoPatch inp).nbf4 i =
      vertexBdyCountTP inp.neumann (kinksOf inp).1 (kinksOf inp).2 i
        (inp.verts.getD i ⟨0, 0⟩) := by
  have hlen : (offs 0 (inp.verts.enum.map
      (fun p => vertexBdyCountTP inp.neumann (kinksOf inp).1
        (kinksOf inp).2 p.1 p.2))).length = inp.verts.length + 1 := by
    simp [offs_length]
  rw [initTwoPatch_nbf4, shift_offs0, gD_offs_sub _ _ i (by simpa using hi)]
  exact getD_enum_map _ _ _ _ hi

/-- C6: in the two-patch initializer a shared corner with collinear
tangents (squared determinant at most 1e-25) sets no kink flag, excludes
nothing extra from the interface allocation, and leaves the
interface-boundary vertex 1 with 2 boundary-vertex DOFs; non-parallel
tangents (squared determinant above 1e-25) set the flag, exclude one
more interface function, and give vertex 1 exactly one more
boundary-vertex DOF — all in non-Neumann mode. -/
theorem c6_kink_detection (inp : TwoPatchInput)
    (hneu : inp.neumann = false)
    (hne : inp.ifaces ≠ [])
    (hv : 1 < inp.verts.length)
    (hval : (inp.verts.getD 1 ⟨0, 0⟩).valence ≠ 1)
    (hsub : (inp.verts.getD 1 ⟨0, 0⟩).valence ≠
      (inp.verts.getD 1 ⟨0, 0⟩).subIfaces) :
    (detSq inp.geo.tang0c0 inp.geo.tang1c0 ≤ 1 / 10 ^ 25 →
      (initTwoPatch inp).kink0 = false ∧
      gD (initTwoPatch inp).nbf4 2 - gD (initTwoPatch inp).nbf4 1 = 2 ∧
      (∀ i : ℕ, i < inp.ifaces.length →
        gD (initTwoPatch inp).nbf0 (i + 1) - gD (initTwoPatch inp).nbf0 i =
          rawPlusInner inp.innerKnotMulti (inp.ifaces.getD i ⟨0, 0, 0, 0, 0⟩) -
            4 - (if (initTwoPatch inp).kink1 then 1 else 0))) ∧
    (detSq inp.geo.tang0c0 inp.geo.tang1c0 > 1 / 10 ^ 25 →
      (initTwoPatch inp).kink0 = true ∧
      gD (initTwoPatch inp).nbf4 2 - gD (initTwoPatch inp).nbf4 1 = 3 ∧
      (∀ i : ℕ, i < inp.ifaces.length →
        gD (initTwoPatch inp).nbf0 (i + 1) - gD (initTwoPatch inp).nbf0 i =
          rawPlusInner inp.innerKnotMulti (inp.ifaces.getD i ⟨0, 0, 0, 0, 0⟩) -
            4 - 1 - (if (initTwoPatch inp).kink1 then 1 else 0))) := by
  have hk := kinksOf_of_ne_nil inp hne
  have hstk0 : (initTwoPatch inp).kink0 = kink0Of inp.geo := by
    rw [(initTwoPatch_kinks inp).1, hk]
  have hstk1 : (initTwoPatch inp).kink1 = kink1Of inp.geo := by
    rw [(initTwoPatch_kinks inp).2, hk]
  constructor
  · intro hdet
    have hkt : kink0Of inp.geo = false := kinkTest_eq_false hdet
    refine ⟨by rw [hstk0, hkt], ?_, ?_⟩
    · rw [initTwoPatch_nbf4_diff inp 1 hv]
      unfold vertexBdyCountTP
      rw [if_neg hval, if_neg hsub]
      simp [hneu, hk, hkt]
    · intro i hi
      rw [initTwoPatch_nbf0_diff inp i hi, hstk1]
      unfold interfaceCountTP numIntBdy rawPlusInner
      rw [hneu, hkt]
      simp only [Bool.false_eq_true, if_false]
      ring
  · intro hdet
    have hkt : kink0Of inp.geo = true := kinkTest_eq_true hdet
    refine ⟨by rw [hstk0, hkt], ?_, ?_⟩
    · rw [initTwoPatch_nbf4_diff inp 1 hv]
      unfold vertexBdyCountTP
      rw [if_neg hval, if_neg hsub]
      simp [hneu, hk, hkt]
    · intro i hi
      rw [initTwoPatch_nbf0_diff inp i hi, hstk1]
      unfold interfaceCountTP numIntBdy rawPlusInner
      rw [hneu, hkt]
      simp only [Bool.false_eq_true, if_false, if_true]
      ring

/-- Witness for C6: the concrete configuration whose tangents at the
first shared corner are at 90 degrees triggers the kink branch. -/
theorem c6_kink_detection_witness :
    tpInpB.neumann = false ∧ 1 < tpInpB.verts.length ∧
    detSq tpInpB.geo.tang0c0 tpInpB.geo.tang1c0 > 1 / 10 ^ 25 ∧
    (initTwoPatch tpInpB).kink0 = true ∧
    gD (initTwoPatch tpInpB).nbf4 2 - gD (initTwoPatch tpInpB).nbf4 1 = 3 := by
  have hdet : detSq tpInpB.geo.tang0c0 tpInpB.geo.tang1c0 > 1 / 10 ^ 25 := by
    show detSq (1, 0) (0, 1) > 1 / 10 ^ 25
    simp only [detSq]
    norm_num
  have h := (c6_kink_detection tpInpB (by decide) (List.cons_ne_nil _ _)
    (by decide) (by decide) (by decide)).2 hdet
  exact ⟨by decide, by decide, hdet, h.1, h.2.1⟩

/-! ## Claim C9 -/

lemma foldl_scale_untouched (f : ℕ → ℤ) (g : ℕ → ℚ) (M0 : ℤ → ℤ → ℚ)
    (n : ℕ) (r c : ℤ) (hr : ∀ i, i < n → r ≠ f i) :
    ((List.range n).foldl
      (fun M i => fun r' c' => if r' = f i then M r' c' * g i else M r' c')
      M0) r c = M0 r c := by
  induction n with
  | zero => rfl
  | succ m ih =>
      rw [List.range_succ, List.foldl_append, List.foldl_cons, List.foldl_nil]
      show (if r = f m then _ * g m else _) = M0 r c
      rw [if_neg (hr m (by omega))]
      exact ih (fun i hi => hr i (by omega))

lemma foldl_scale_hit (f : ℕ → ℤ) (g : ℕ → ℚ) (M0 : ℤ → ℤ → ℚ) (n : ℕ)
    (r c : ℤ) (k : ℕ) (hk : k < n) (hr : r = f k)
    (hinj : ∀ i, i < n → f i = f k → i = k) :
    ((List.range n).foldl
      (fun M i => fun r' c' => if r' = f i then M r' c' * g i else M r' c')
      M0) r c = M0 r c * g k := by
  induction n with
  | zero => omega
  | succ m ih =>
      rw [List.range_succ, List.foldl_append, List.foldl_cons, List.foldl_nil]
      by_cases hm : k = m
      · subst hm
        show (if r = f k then _ * g k else _) = M0 r c * g k
        rw [if_pos hr]
        have huntouched : ∀ i, i < k → r ≠ f i := by
          intro i hi hcontra
          have := hinj i (by omega) (by rw [← hcontra, hr])
          omega
        rw [foldl_scale_untouched f g M0 k r c huntouched]
      · have hkm : k < m := by omega
        show (if r = f m then _ * g m else _) = M0 r c * g k
        rw [if_neg ?_]
        · exact ih hkm (fun i hi hfi => hinj i (by omega) hfi)
        · intro hcontra
          have := hinj m (by omega) (by rw [← hcontra, hr])
          omega

/-- Pointwise value of `constructSparseG1Solution`: rows below
`dim_G1_Dofs` are the corresponding rows of `D` scaled by the solution
coefficient, rows of the boundary block are scaled by the stored `m_g1`,
and the one extra row holds the interior slice of the solution vector. -/
lemma constructSparse_eval (sys : G1Sys) (D : ℤ → ℤ → ℚ) (mg1 sol : ℤ → ℚ)
    (r c : ℤ) :
    constructSparseG1Solution sys D mg1 sol r c =
      (if 0 ≤ r ∧ r < (sys.dim_G1_Dofs.toNat : ℤ) then
        (if 0 ≤ c ∧ c < (sys.dim_K.toNat : ℤ) then D r c else 0) * sol r
      else if (sys.dim_G1_Dofs.toNat : ℤ) ≤ r ∧
          r < (sys.dim_G1_Dofs.toNat : ℤ) + (sys.dim_G1_Bdy.toNat : ℤ) then
        (if 0 ≤ c ∧ c < (sys.dim_K.toNat : ℤ) then D r c else 0) * mg1 r
      else if r = (sys.dim_G1_Dofs.toNat : ℤ) + (sys.dim_G1_Bdy.toNat : ℤ) ∧
          0 ≤ c ∧ c < (sys.dim_K.toNat : ℤ) then
        sol ((sys.dim_G1_Dofs.toNat : ℤ) + (sys.dim_G1_Bdy.toNat : ℤ) + c)
      else 0) := by
  unfold constructSparseG1Solution
  set dD := sys.dim_G1_Dofs.toNat with hdD
  set dB := sys.dim_G1_Bdy.toNat with hdB
  set dK := sys.dim_K.toNat with hdK
  set res0 : ℤ → ℤ → ℚ := fun r' c' =>
    if 0 ≤ r' ∧ r' < (dD : ℤ) + (dB : ℤ) + 1 ∧ 0 ≤ c' ∧ c' < (dK : ℤ)
    then D r' c' else 0 with hres0
  by_cases h1 : 0 ≤ r ∧ r < (dD : ℤ)
  · -- a G1-DOF row: scaled by sol r, untouched by the other two phases
    have hnotin : ∀ w ∈ (List.range dK).map (fun i : ℕ =>
        (((dD : ℤ) + (dB : ℤ), (i : ℤ),
          sol ((dD : ℤ) + (dB : ℤ) + (i : ℤ))) : Wr)), wRow w ≠ r := by
      intro w hw
      rcases List.mem_map.1 hw with ⟨i, _, rfl⟩
      show (dD : ℤ) + (dB : ℤ) ≠ r
      omega
    rw [applyW_norow _ _ _ _ hnotin]
    rw [foldl_scale_untouched (fun i => (dD : ℤ) + (i : ℤ))
      (fun i => mg1 ((dD : ℤ) + (i : ℤ))) _ dB r c
      (by intro i hi; show r ≠ (dD : ℤ) + (i : ℤ); omega)]
    have hk : r.toNat < dD := by omega
    rw [foldl_scale_hit (fun i => (i : ℤ)) (fun i => sol (i : ℤ)) res0 dD r c
      r.toNat hk (by show r = ((r.toNat : ℕ) : ℤ); omega)
      (by
        intro i hi hfi
        have hfi' : (i : ℤ) = ((r.toNat : ℕ) : ℤ) := hfi
        omega)]
    rw [if_pos h1]
    have hr' : ((r.toNat : ℕ) : ℤ) = r := Int.toNat_of_nonneg h1.1
    rw [hr']
    show (if 0 ≤ r ∧ r < (dD : ℤ) + (dB : ℤ) + 1 ∧ 0 ≤ c ∧ c < (dK : ℤ)
        then D r c else 0) * sol r =
      (if 0 ≤ c ∧ c < (dK : ℤ) then D r c else 0) * sol r
    congr 1
    by_cases hc : 0 ≤ c ∧ c < (dK : ℤ)
    · rw [if_pos ⟨h1.1, by omega, hc.1, hc.2⟩, if_pos hc]
    · rw [if_neg (fun hcon => hc ⟨hcon.2.2.1, hcon.2.2.2⟩), if_neg hc]
  · rw [if_neg h1]
    by_cases h2 : (dD : ℤ) ≤ r ∧ r < (dD : ℤ) + (dB : ℤ)
    · -- a boundary row: scaled by mg1 r
      have hnotin : ∀ w ∈ (List.range dK).map (fun i : ℕ =>
          (((dD : ℤ) + (dB : ℤ), (i : ℤ),
            sol ((dD : ℤ) + (dB : ℤ) + (i : ℤ))) : Wr)), wRow w ≠ r := by
        intro w hw
        rcases List.mem_map.1 hw with ⟨i, _, rfl⟩
        show (dD : ℤ) + (dB : ℤ) ≠ r
        omega
      rw [applyW_norow _ _ _ _ hnotin]
      have hk : (r - dD).toNat < dB := by omega
      rw [foldl_scale_hit (fun i => (dD : ℤ) + (i : ℤ))
        (fun i => mg1 ((dD : ℤ) + (i : ℤ))) _ dB r c
        (r - dD).toNat hk
        (by show r = (dD : ℤ) + (((r - dD).toNat : ℕ) : ℤ); omega)
        (by
          intro i hi hfi
          have hfi' : (dD : ℤ) + (i : ℤ) =
              (dD : ℤ) + (((r - dD).toNat : ℕ) : ℤ) := hfi
          omega)]
      rw [foldl_scale_untouched (fun i => (i : ℤ)) (fun i => sol (i : ℤ))
        res0 dD r c (by intro i hi; show r ≠ ((i : ℕ) : ℤ); omega)]
      rw [if_pos h2]
      have hr' : (dD : ℤ) + (((r - dD).toNat : ℕ) : ℤ) = r := by omega
      rw [hr']
      show (if 0 ≤ r ∧ r < (dD : ℤ) + (dB : ℤ) + 1 ∧ 0 ≤ c ∧ c < (dK : ℤ)
          then D r c else 0) * mg1 r =
        (if 0 ≤ c ∧ c < (dK : ℤ) then D r c else 0) * mg1 r
      congr 1
      by_cases hc : 0 ≤ c ∧ c < (dK : ℤ)
      · rw [if_pos ⟨by omega, by omega, hc.1, hc.2⟩, if_pos hc]
      · rw [if_neg (fun hcon => hc ⟨hcon.2.2.1, hcon.2.2.2⟩), if_neg hc]
    · rw [if_neg h2]
      have huntouched2 : ((List.range dB).foldl
          (fun M (i : ℕ) => fun r' c' => if r' = (dD : ℤ) + (i : ℤ)
            then M r' c' * mg1 ((dD : ℤ) + (i : ℤ)) else M r' c')
          (((List.range dD).foldl
            (fun M (i : ℕ) => fun r' c' => if r' = (i : ℤ)
              then M r' c' * sol (i : ℤ) else M r' c') res0))) r c =
          res0 r c := by
        rw [foldl_scale_untouched (fun i => (dD : ℤ) + (i : ℤ))
          (fun i => mg1 ((dD : ℤ) + (i : ℤ))) _ dB r c
          (by intro i hi; show r ≠ (dD : ℤ) + (i : ℤ); omega)]
        rw [foldl_scale_untouched (fun i => (i : ℤ)) (fun i => sol (i : ℤ))
          res0 dD r c (by intro i hi; show r ≠ ((i : ℕ) : ℤ); omega)]
      by_cases h3 : r = (dD : ℤ) + (dB : ℤ) ∧ 0 ≤ c ∧ c < (dK : ℤ)
      · -- the extra interior row, in-range column: the inserted value
        rw [if_pos h3]
        apply applyW_last_write _ r c
        · refine ⟨((dD : ℤ) + (dB : ℤ), (c.toNat : ℤ),
            sol ((dD : ℤ) + (dB : ℤ) + (c.toNat : ℤ))), ?_, ?_, ?_⟩
          · exact List.mem_map.2 ⟨c.toNat, List.mem_range.2 (by omega), rfl⟩
          · show (dD : ℤ) + (dB : ℤ) = r
            omega
          · show ((c.toNat : ℕ) : ℤ) = c
            omega
        · rintro w hw hwr hwc
          rcases List.mem_map.1 hw with ⟨i, _, rfl⟩
          show sol ((dD : ℤ) + (dB : ℤ) + (i : ℤ)) =
            sol ((dD : ℤ) + (dB : ℤ) + c)
          have hceq : (i : ℤ) = c := hwc
          rw [hceq]
      · rw [if_neg h3]
        by_cases h4 : r = (dD : ℤ) + (dB : ℤ)
        · -- extra row, out-of-range column: nothing inserted there, and
          -- the copied block is zero outside the dim_K columns
          have hnocell : ∀ w ∈ (List.range dK).map (fun i : ℕ =>
              (((dD : ℤ) + (dB : ℤ), (i : ℤ),
                sol ((dD : ℤ) + (dB : ℤ) + (i : ℤ))) : Wr)),
              ¬(r = wRow w ∧ c = wCol w) := by
            intro w hw hcontra
            rcases List.mem_map.1 hw with ⟨i, hi, rfl⟩
            have hceq : c = ((i : ℕ) : ℤ) := hcontra.2
            have hcr : 0 ≤ c ∧ c < (dK : ℤ) := by
              have := List.mem_range.1 hi
              omega
            exact h3 ⟨h4, hcr⟩
          rw [applyW_nocell _ _ _ _ hnocell, huntouched2]
          show (if 0 ≤ r ∧ r < (dD : ℤ) + (dB : ℤ) + 1 ∧ 0 ≤ c ∧ c < (dK : ℤ)
            then D r c else 0) = 0
          rw [if_neg (fun hcon => h3 ⟨h4, hcon.2.2.1, hcon.2.2.2⟩)]
        · -- any other row: outside the copied block entirely
          have hnocell : ∀ w ∈ (List.range dK).map (fun i : ℕ =>
              (((dD : ℤ) + (dB : ℤ), (i : ℤ),
                sol ((dD : ℤ) + (dB : ℤ) + (i : ℤ))) : Wr)),
              ¬(r = wRow w ∧ c = wCol w) := by
            intro w hw hcontra
            rcases List.mem_map.1 hw with ⟨i, hi, rfl⟩
            exact h4 hcontra.1
          rw [applyW_nocell _ _ _ _ hnocell, huntouched2]
          show (if 0 ≤ r ∧ r < (dD : ℤ) + (dB : ℤ) + 1 ∧ 0 ≤ c ∧ c < (dK : ℤ)
            then D r c else 0) = 0
          rw [if_neg (by intro hcon; omega)]

/-- C9 (amended): the sparse reconstruction takes the reduced solution
vector as input — rows below `dim_G1_Dofs` are the rows of `D` scaled by
the corresponding entry of `solVector`, boundary-block rows are scaled by
the stored `m_g1`, and one extra final row receives the interior slice of
`solVector`. -/
theorem c9_sparse_reconstruction (sys : G1Sys) (D : ℤ → ℤ → ℚ)
    (mg1 sol : ℤ → ℚ) (r c : ℤ) :
    constructSparseG1Solution sys D mg1 sol r c =
      (if 0 ≤ r ∧ r < (sys.dim_G1_Dofs.toNat : ℤ) then
        (if 0 ≤ c ∧ c < (sys.dim_K.toNat : ℤ) then D r c else 0) * sol r
      else if (sys.dim_G1_Dofs.toNat : ℤ) ≤ r ∧
          r < (sys.dim_G1_Dofs.toNat : ℤ) + (sys.dim_G1_Bdy.toNat : ℤ) then
        (if 0 ≤ c ∧ c < (sys.dim_K.toNat : ℤ) then D r c else 0) * mg1 r
      else if r = (sys.dim_G1_Dofs.toNat : ℤ) + (sys.dim_G1_Bdy.toNat : ℤ) ∧
          0 ≤ c ∧ c < (sys.dim_K.toNat : ℤ) then
        sol ((sys.dim_G1_Dofs.toNat : ℤ) + (sys.dim_G1_Bdy.toNat : ℤ) + c)
      else 0) :=
  constructSparse_eval sys D mg1 sol r c

/-- C9, counterexample to the claim as stated: the sparse reconstruction
requires the coefficient vector — its output changes when only
`solVector` changes. -/
theorem c9_counterexample :
    constructSparseG1Solution sysEx (fun _ _ => 1) (fun _ => 0)
      (fun _ => 1) 0 0 = 1 ∧
    constructSparseG1Solution sysEx (fun _ _ => 1) (fun _ => 0)
      (fun _ => 2) 0 0 = 2 ∧
    (1 : ℚ) ≠ 2 := by
  refine ⟨?_, ?_, by norm_num⟩
  · rw [constructSparse_eval, if_pos (by decide), if_pos (by decide)]
    norm_num
  · rw [constructSparse_eval, if_pos (by decide), if_pos (by decide)]
    norm_num

/-! ## Claim C10 -/

lemma interfaceRowsTP_rerouted (plusInt r41 r43 r0 r0' bfID : ℤ)
    (k0 k1 : Bool)
    (hre : bfID = 0 ∨ bfID = plusInt - 1 ∨ bfID = plusInt ∨
      bfID = 2 * plusInt - 2 ∨ (bfID = 1 ∧ k0 = true) ∨
      (bfID = plusInt - 2 ∧ k1 = true)) :
    interfaceRowsTP plusInt k0 k1 r41 r43 r0 bfID =
      interfaceRowsTP plusInt k0 k1 r41 r43 r0' bfID ∧
    ∀ r ∈ interfaceRowsTP plusInt k0 k1 r41 r43 r0 bfID,
      r = r41 ∨ r = r41 + 1 ∨ r = r41 + 2 ∨ r = r43 ∨ r = r43 + 1 ∨
        r = r43 + 2 := by
  unfold interfaceRowsTP
  by_cases h1 : bfID = 0 ∨ bfID = plusInt - 1 ∨ bfID = plusInt ∨
    bfID = 2 * plusInt - 2
  · rw [if_pos h1, if_pos h1]
    refine ⟨rfl, ?_⟩
    intro r hr
    rcases List.mem_append.1 hr with hr | hr <;> split_ifs at hr <;>
      simp at hr <;> omega
  · rw [if_neg h1, if_neg h1]
    by_cases h2 : bfID = 1 ∧ k0 = true
    · rw [if_pos h2, if_pos h2]
      refine ⟨rfl, ?_⟩
      intro r hr
      simp at hr
      omega
    · rw [if_neg h2, if_neg h2]
      by_cases h3 : bfID = plusInt - 2 ∧ k1 = true
      · rw [if_pos h3, if_pos h3]
        refine ⟨rfl, ?_⟩
        intro r hr
        simp at hr
        omega
      · exfalso
        tauto

/-- C10: in two-patch non-Neumann mode the rerouting of endpoint
plus-space and kink functions depends only on `sizePlusInt[0]` and
targets the fixed boundary-vertex rows `numBasisFunctions[4][1]+{0,1,2}`
and `numBasisFunctions[4][3]+{0,1,2}`, independently of the interface id;
and the kink flags are computed during initialization from the Jacobians
of patches 0 and 1 at fixed parametric corner points, the same for every
interface. -/
theorem c10_fixed_rerouting :
    (∀ plusInt r41 r43 r0 r0' bfID : ℤ, ∀ k0 k1 : Bool,
      (bfID = 0 ∨ bfID = plusInt - 1 ∨ bfID = plusInt ∨
        bfID = 2 * plusInt - 2 ∨ (bfID = 1 ∧ k0 = true) ∨
        (bfID = plusInt - 2 ∧ k1 = true)) →
      interfaceRowsTP plusInt k0 k1 r41 r43 r0 bfID =
        interfaceRowsTP plusInt k0 k1 r41 r43 r0' bfID ∧
      ∀ r ∈ interfaceRowsTP plusInt k0 k1 r41 r43 r0 bfID,
        r = r41 ∨ r = r41 + 1 ∨ r = r41 + 2 ∨ r = r43 ∨ r = r43 + 1 ∨
          r = r43 + 2) ∧
    (∀ sys : G1Sys, ∀ pA pB iID iID' : ℕ, ∀ bfID : ℤ,
      ∀ coefs0 coefs1 : List ℚ,
      sys.twoPatch = true → sys.neumannBdy = false →
      (bfID = 0 ∨ bfID = gD sys.sizePlusInt 0 - 1 ∨
        bfID = gD sys.sizePlusInt 0 ∨
        bfID = 2 * gD sys.sizePlusInt 0 - 2 ∨
        (bfID = 1 ∧ sys.kink0 = true) ∨
        (bfID = gD sys.sizePlusInt 0 - 2 ∧ sys.kink1 = true)) →
      insertInterfaceEdgeW sys pA pB iID bfID coefs0 coefs1 =
        insertInterfaceEdgeW sys pA pB iID' bfID coefs0 coefs1) ∧
    (∀ inp : TwoPatchInput, inp.ifaces ≠ [] →
      (initTwoPatch inp).kink0 = kinkTest inp.geo.tang0c0 inp.geo.tang1c0 ∧
      (initTwoPatch inp).kink1 = kinkTest inp.geo.tang0c1 inp.geo.tang1c1) := by
  refine ⟨?_, ?_, ?_⟩
  · intro plusInt r41 r43 r0 r0' bfID k0 k1 hre
    exact interfaceRowsTP_rerouted plusInt r41 r43 r0 r0' bfID k0 k1 hre
  · intro sys pA pB iID iID' bfID coefs0 coefs1 htp hneu hre
    unfold insertInterfaceEdgeW
    have hrows : interfaceRows sys iID bfID = interfaceRows sys iID' bfID := by
      unfold interfaceRows
      rw [if_pos (by rw [htp, hneu]; simp), if_pos (by rw [htp, hneu]; simp)]
      exact (interfaceRowsTP_rerouted (gD sys.sizePlusInt 0) (gD sys.nbf4 1)
        (gD sys.nbf4 3) (gD sys.nbf0 iID) (gD sys.nbf0 iID') bfID
        sys.kink0 sys.kink1 hre).1
    rw [hrows]
  · intro inp hne
    have hk := kinksOf_of_ne_nil inp hne
    exact ⟨by rw [(initTwoPatch_kinks inp).1, hk]; rfl,
      by rw [(initTwoPatch_kinks inp).2, hk]; rfl⟩

/-- Witness for C10 on the concrete two-patch configuration: the writes
of the rerouted first plus-space function are identical for interface
ids 0 and 5. -/
theorem c10_fixed_rerouting_witness :
    (sysTPa.twoPatch = true ∧ sysTPa.neumannBdy = false ∧ (0 : ℤ) = 0) ∧
    insertInterfaceEdgeW sysTPa 0 1 0 0 [1] [1] =
      insertInterfaceEdgeW sysTPa 0 1 5 0 [1] [1] ∧
    (initTwoPatch tpInpA).kink0 =
      kinkTest tpInpA.geo.tang0c0 tpInpA.geo.tang1c0 := by
  refine ⟨⟨by decide, by decide, rfl⟩, ?_, ?_⟩
  · exact c10_fixed_rerouting.2.1 sysTPa 0 1 0 5 0 [1] [1] (by decide)
      (by decide) (Or.inl rfl)
  · exact (c10_fixed_rerouting.2.2 tpInpA (List.cons_ne_nil _ _)).1

/-! ## Claim C7 -/

lemma kinksOf_tpInpA : kinksOf tpInpA = (false, false) := by
  rw [kinksOf_of_ne_nil tpInpA (List.cons_ne_nil _ _)]
  rw [kink0Of_tpInpA, kink1Of_tpInpA]

lemma tpInpA_count0 :
    tpInpA.ifaces.map
      (interfaceCountTP tpInpA.neumann tpInpA.geo tpInpA.innerKnotMulti) =
      [1] := by
  have h : interfaceCountTP tpInpA.neumann tpInpA.geo tpInpA.innerKnotMulti
      ⟨2, 2, 2, 1, 1⟩ = 1 := by
    unfold interfaceCountTP numIntBdy
    rw [kink0Of_tpInpA, kink1Of_tpInpA]
    norm_num [mpOf, mrOf, mnOf, numInnerKnot, tpInpA]
  show [interfaceCountTP tpInpA.neumann tpInpA.geo tpInpA.innerKnotMulti
    ⟨2, 2, 2, 1, 1⟩] = [1]
  rw [h]

/-- `initialize_twoPatch` on the concrete two-patch input evaluates to
the explicit table set `sysTPaVal`. -/
lemma sysTPa_eval : sysTPa = sysTPaVal := by
  show initTwoPatch tpInpA = sysTPaVal
  simp only [initTwoPatch]
  rw [tpInpA_count0, kinksOf_tpInpA]
  decide

lemma coefWrites_one (rows : List ℤ) (base : ℤ) :
    coefWrites rows base [1] = rows.map (fun r => (r, base, (1 : ℚ))) := by
  simp [coefWrites, List.enum_cons, List.enumFrom, pruneOK_one]

lemma rows_callA : rowsOfCall sysTPaVal callA = [24, 24] := by
  show (insertInterfaceEdgeW sysTPaVal 0 1 0 0 [1] [1]).map wRow = [24, 24]
  unfold insertInterfaceEdgeW
  rw [show interfaceRows sysTPaVal 0 0 = [24] from by decide]
  rw [coefWrites_one, coefWrites_one]
  rfl

lemma rows_callB : rowsOfCall sysTPaVal callB = [24] := by
  show (insertVertexW sysTPaVal [(0, [1])] 1 0 0).map wRow = [24]
  unfold insertVertexW
  rw [List.flatMap_cons, List.flatMap_nil, List.append_nil]
  rw [show vertexRow sysTPaVal 1 0 0 = 24 from by decide]
  rw [coefWrites_one]
  rfl

lemma rows_callC : rowsOfCall sysTPaVal callC = [13] := by
  show (insertBoundaryEdgeW sysTPaVal 0 0 0 [1]).map wRow = [13]
  unfold insertBoundaryEdgeW
  rw [show boundaryRow sysTPaVal 0 0 = 13 from by decide]
  rw [coefWrites_one]
  rfl

/-- C7, counterexample to the claim as stated: on a two-patch
configuration (non-Neumann), the interface call for basis function 0 of
interface 0 and the vertex call for ordinal 0 of vertex 1 are addressed
to distinct entities but both write row 24 — the first row of the
boundary-vertex block of vertex 1 — because `insertInterfaceEdge`
reroutes the endpoint plus-space functions into the boundary-vertex
blocks of vertices 1 and 3. -/
theorem c7_counterexample :
    sysTPaVal = initTwoPatch tpInpA ∧
    entityOf callA ≠ entityOf callB ∧
    callValid sysTPaVal callA ∧ callValid sysTPaVal callB ∧
    (24 : ℤ) ∈ rowsOfCall sysTPaVal callA ∧
    (24 : ℤ) ∈ rowsOfCall sysTPaVal callB := by
  refine ⟨sysTPa_eval.symm, by decide, by decide, by decide, ?_, ?_⟩
  · rw [rows_callA]; decide
  · rw [rows_callB]; decide

lemma inSlot_same_disjoint {t : List ℤ} (hc : List.Chain' (· ≤ ·) t)
    {e f : ℕ} (hne : e ≠ f) (he : e + 1 < t.length) (hf : f + 1 < t.length)
    {r : ℤ} (h : inSlot t e r) (h' : inSlot t f r) : False := by
  obtain ⟨hl, hu⟩ := h
  obtain ⟨hl', hu'⟩ := h'
  rcases Nat.lt_or_ge e f with hlt | hge
  · have h2 : gD t (e + 1) ≤ gD t f := chain_gD_mono hc (by omega) (by omega)
    omega
  · have h2 : gD t (f + 1) ≤ gD t e := chain_gD_mono hc (by omega) (by omega)
    omega

lemma inSlot_cross_disjoint {t u : List ℤ}
    (hc : List.Chain' (· ≤ ·) t) (hc' : List.Chain' (· ≤ ·) u)
    (hlink : lastD t ≤ gD u 0) {e f : ℕ}
    (he : e + 1 < t.length) (hf : f < u.length)
    {r : ℤ} (h : inSlot t e r) (h' : inSlot u f r) : False := by
  obtain ⟨hl, hu⟩ := h
  obtain ⟨hl', hu'⟩ := h'
  have h2 : gD t (e + 1) ≤ lastD t := gD_le_lastD_chain hc (e + 1) he
  have h3 : gD u 0 ≤ gD u f := gD_head_le_chain hc' f hf
  omega

lemma boundaryRow_loc (sys : G1Sys) (p bID : ℕ) (bfID : ℤ) (cs : List ℚ)
    (hv : callValid sys (.bdryEdge p bID bfID cs)) :
    inSlot sys.nbf3 bID (boundaryRow sys bID bfID) ∨
      inSlot sys.nbf1 bID (boundaryRow sys bID bfID) := by
  obtain ⟨h3, h1, h0, hrest⟩ := hv
  unfold boundaryRow inSlot
  by_cases htp : sys.twoPatch ∧ ¬sys.neumannBdy
  · rw [if_pos htp]
    rw [if_pos htp] at hrest
    obtain ⟨hsz, hcnt⟩ := hrest
    by_cases hlt : bfID < gD sys.sizePlusBdy bID
    · rw [if_pos hlt]; left; omega
    · rw [if_neg hlt]; right; omega
  · rw [if_neg htp]
    rw [if_neg htp] at hrest
    by_cases hneu : ¬sys.neumannBdy
    · rw [if_pos hneu]
      rw [if_pos hneu] at hrest
      obtain ⟨hsz, hcnt, h6⟩ := hrest
      by_cases hlt : bfID < gD sys.sizePlusBdy bID - 6
      · rw [if_pos hlt]; left; omega
      · rw [if_neg hlt]; right; omega
    · rw [if_neg hneu]
      rw [if_neg hneu] at hrest
      left; omega

lemma vertexRow_loc (sys : G1Sys) (ps : List (ℕ × List ℚ)) (vID : ℕ)
    (nDofs bfID : ℤ)
    (hv : callValid sys (.vertex ps vID nDofs bfID)) :
    inSlot sys.nbf2 vID (vertexRow sys vID nDofs bfID) ∨
      (nDofs ≤ bfID ∧ inSlot sys.nbf4 vID (vertexRow sys vID nDofs bfID)) := by
  obtain ⟨h2, h4, h0, hn0, hkind, hk0, hkn⟩ := hv
  unfold vertexRow inSlot
  by_cases hz : gD sys.kindOfVertex vID = 0
  · rw [if_pos hz]
    left
    have := hk0 hz
    omega
  · rw [if_neg hz]
    have hcnt := hkn hz
    have hbr : gD sys.kindOfVertex vID = -1 ∨ gD sys.kindOfVertex vID = 1 := by
      rcases hkind with hk | hk | hk
      exacts [absurd hk hz, Or.inl hk, Or.inr hk]
    by_cases hlt : bfID < nDofs
    · rw [if_pos hlt] at hcnt
      left
      rcases hbr with hk | hk
      · rw [if_pos hk, if_pos hlt]
        omega
      · rw [if_neg (by rw [hk]; decide), if_pos hk, if_pos hlt]
        omega
    · rw [if_neg hlt] at hcnt
      right
      rcases hbr with hk | hk
      · rw [if_pos hk, if_neg hlt]
        omega
      · rw [if_neg (by rw [hk]; decide), if_pos hk, if_neg hlt]
        omega

lemma interfaceRows_loc (sys : G1Sys) (pA pB iID : ℕ) (bfID : ℤ)
    (c0 c1 : List ℚ)
    (hv : callValid sys (.iface pA pB iID bfID c0 c1))
    (hres : sys.twoPatch ∧ ¬sys.neumannBdy → twoPatchReserved sys) :
    ∀ r ∈ interfaceRows sys iID bfID,
      inSlot sys.nbf0 iID r ∨
        ((sys.twoPatch ∧ ¬sys.neumannBdy) ∧
          (inSlot sys.nbf4 1 r ∨ inSlot sys.nbf4 3 r)) := by
  obtain ⟨hlen, h0, hrest⟩ := hv
  intro r hr
  unfold interfaceRows at hr
  by_cases htp : sys.twoPatch ∧ ¬sys.neumannBdy
  · rw [if_pos htp] at hr
    rw [if_pos htp] at hrest
    obtain ⟨hub, hp3, hcnt⟩ := hrest
    obtain ⟨hlen4, hres1, hres3⟩ := hres htp
    unfold interfaceRowsTP at hr
    by_cases h1 : bfID = 0 ∨ bfID = gD sys.sizePlusInt 0 - 1 ∨
        bfID = gD sys.sizePlusInt 0 ∨ bfID = 2 * gD sys.sizePlusInt 0 - 2
    · rw [if_pos h1] at hr
      right
      refine ⟨htp, ?_⟩
      have e1 : (0 : ℤ) ≤ if sys.kink0 then 1 else 0 := by split_ifs <;> omega
      have e2 : (0 : ℤ) ≤ if sys.kink1 then 1 else 0 := by split_ifs <;> omega
      show (gD sys.nbf4 1 ≤ r ∧ r < gD sys.nbf4 2) ∨
        (gD sys.nbf4 3 ≤ r ∧ r < gD sys.nbf4 4)
      rcases List.mem_append.1 hr with hr | hr <;> split_ifs at hr <;>
        simp at hr <;> omega
    · rw [if_neg h1] at hr
      by_cases h2 : bfID = 1 ∧ sys.kink0 = true
      · rw [if_pos h2] at hr
        simp at hr
        right
        refine ⟨htp, Or.inl ?_⟩
        show gD sys.nbf4 1 ≤ r ∧ r < gD sys.nbf4 2
        rw [h2.2] at hres1
        simp at hres1
        omega
      · rw [if_neg h2] at hr
        by_cases h3 : bfID = gD sys.sizePlusInt 0 - 2 ∧ sys.kink1 = true
        · rw [if_pos h3] at hr
          simp at hr
          right
          refine ⟨htp, Or.inr ?_⟩
          show gD sys.nbf4 3 ≤ r ∧ r < gD sys.nbf4 4
          rw [h3.2] at hres3
          simp at hres3
          omega
        · rw [if_neg h3] at hr
          simp at hr
          left
          show gD sys.nbf0 iID ≤ r ∧ r < gD sys.nbf0 (iID + 1)
          push_neg at h1 h2 h3
          obtain ⟨hb0, hbp1, hbp, hb2p⟩ := h1
          have h2i : bfID = 1 → sys.kink0 = true → False := fun ha hb => h2 ha hb
          have h3i : bfID = gD sys.sizePlusInt 0 - 2 → sys.kink1 = true → False :=
            fun ha hb => h3 ha hb
          cases hk0c : sys.kink0
          · cases hk1c : sys.kink1
            · rw [hk0c, hk1c] at hr hcnt
              simp at hr hcnt
              split_ifs at hr <;> omega
            · have hb3 : bfID ≠ gD sys.sizePlusInt 0 - 2 := fun ha => h3i ha hk1c
              rw [hk0c, hk1c] at hr hcnt
              simp at hr hcnt
              split_ifs at hr <;> omega
          · have hb1 : bfID ≠ 1 := fun ha => h2i ha hk0c
            cases hk1c : sys.kink1
            · rw [hk0c, hk1c] at hr hcnt
              simp at hr hcnt
              split_ifs at hr <;> omega
            · have hb3 : bfID ≠ gD sys.sizePlusInt 0 - 2 := fun ha => h3i ha hk1c
              rw [hk0c, hk1c] at hr hcnt
              simp at hr hcnt
              split_ifs at hr <;> omega
  · rw [if_neg htp] at hr
    rw [if_neg htp] at hrest
    simp at hr
    left
    show gD sys.nbf0 iID ≤ r ∧ r < gD sys.nbf0 (iID + 1)
    omega

lemma rowsOfCall_loc (sys : G1Sys) (c : InsCall) (hv : callValid sys c)
    (hres : sys.twoPatch ∧ ¬sys.neumannBdy → twoPatchReserved sys) :
    ∀ r ∈ rowsOfCall sys c, rowLoc sys c r := by
  intro r hr
  cases c with
  | iface pA pB iID bfID c0 c1 =>
      unfold rowsOfCall writesOfCall at hr
      rcases List.mem_map.1 hr with ⟨w, hw, rfl⟩
      unfold insertInterfaceEdgeW at hw
      rcases List.mem_append.1 hw with hw | hw <;>
        exact interfaceRows_loc sys pA pB iID bfID c0 c1 hv hres _
          (coefWrites_row hw)
  | bdryEdge p bID bfID cs =>
      unfold rowsOfCall writesOfCall at hr
      rcases List.mem_map.1 hr with ⟨w, hw, rfl⟩
      unfold insertBoundaryEdgeW at hw
      have hrow := coefWrites_row hw
      simp at hrow
      rw [show wRow w = boundaryRow sys bID bfID from hrow]
      exact boundaryRow_loc sys p bID bfID cs hv
  | vertex ps vID nDofs bfID =>
      unfold rowsOfCall writesOfCall at hr
      rcases List.mem_map.1 hr with ⟨w, hw, rfl⟩
      unfold insertVertexW at hw
      rcases List.mem_flatMap.1 hw with ⟨q, hq, hw2⟩
      have hrow := coefWrites_row hw2
      simp at hrow
      rw [show wRow w = vertexRow sys vID nDofs bfID from hrow]
      exact vertexRow_loc sys ps vID nDofs bfID hv

lemma tablesChained_sysTPaVal : tablesChained sysTPaVal := by
  refine ⟨by decide, by decide, by decide, by decide, by decide,
    ?_, ?_, ?_, ?_, ?_, ?_, ?_, by decide, by decide, by decide, by decide⟩ <;>
    simp [sysTPaVal, List.chain'_cons]

/-- C7 (amended): two valid insertion calls addressed to distinct
entities write disjoint row sets — hence applying their write lists in
either order yields the same matrix — provided the offset tables are
chained, the reserved boundary-vertex blocks of vertices 1 and 3 are
allocated in two-patch non-Neumann mode, at most one of the calls is an
interface call in that mode, and no vertex call reaches the
boundary-vertex rows of vertices 1 or 3 in that mode (the rerouted
endpoint/kink functions of an interface call live there, see
`c7_counterexample`). -/
theorem c7_insertion_disjoint (sys : G1Sys) (a b : InsCall)
    (hchain : tablesChained sys)
    (hres : sys.twoPatch ∧ ¬sys.neumannBdy → twoPatchReserved sys)
    (hva : callValid sys a) (hvb : callValid sys b)
    (hne : entityOf a ≠ entityOf b)
    (hxa : sys.twoPatch ∧ ¬sys.neumannBdy → noVertexBdry13 a)
    (hxb : sys.twoPatch ∧ ¬sys.neumannBdy → noVertexBdry13 b)
    (hxi : sys.twoPatch ∧ ¬sys.neumannBdy →
      ¬(isIfaceCall a ∧ isIfaceCall b)) :
    (∀ r ∈ rowsOfCall sys a, r ∉ rowsOfCall sys b) ∧
    ∀ D : ℤ → ℤ → ℚ,
      applyW (writesOfCall sys a) (applyW (writesOfCall sys b) D) =
        applyW (writesOfCall sys b) (applyW (writesOfCall sys a) D) := by
  obtain ⟨ne0, ne1, ne2, ne3, ne4, ch0, ch1, ch2, ch3, ch4, ch5, ch6,
    l01, l12, l23, l34⟩ := hchain
  have len1 : 0 < sys.nbf1.length := List.length_pos.2 ne1
  have len2 : 0 < sys.nbf2.length := List.length_pos.2 ne2
  have len3 : 0 < sys.nbf3.length := List.length_pos.2 ne3
  have h1l : gD sys.nbf1 0 ≤ lastD sys.nbf1 := gD_le_lastD_chain ch1 0 len1
  have h2l : gD sys.nbf2 0 ≤ lastD sys.nbf2 := gD_le_lastD_chain ch2 0 len2
  have h3l : gD sys.nbf3 0 ≤ lastD sys.nbf3 := gD_le_lastD_chain ch3 0 len3
  have k01 : lastD sys.nbf0 ≤ gD sys.nbf1 0 := le_of_eq l01
  have k12 : lastD sys.nbf1 ≤ gD sys.nbf2 0 := le_of_eq l12
  have k23 : lastD sys.nbf2 ≤ gD sys.nbf3 0 := le_of_eq l23
  have k34 : lastD sys.nbf3 ≤ gD sys.nbf4 0 := le_of_eq l34
  have k02 : lastD sys.nbf0 ≤ gD sys.nbf2 0 := by omega
  have k03 : lastD sys.nbf0 ≤ gD sys.nbf3 0 := by omega
  have k04 : lastD sys.nbf0 ≤ gD sys.nbf4 0 := by omega
  have k13 : lastD sys.nbf1 ≤ gD sys.nbf3 0 := by omega
  have k14 : lastD sys.nbf1 ≤ gD sys.nbf4 0 := by omega
  have k24 : lastD sys.nbf2 ≤ gD sys.nbf4 0 := by omega
  have hsep : ∀ r, rowLoc sys a r → rowLoc sys b r → False := by
    intro r hla hlb
    cases a with
    | iface pA pB iID bfID c0 c1 =>
      obtain ⟨halen, -, -⟩ := hva
      cases b with
      | iface pA2 pB2 iID2 bfID2 c02 c12 =>
        obtain ⟨hblen, -, -⟩ := hvb
        rcases hla with hla | ⟨htp, hla⟩
        · rcases hlb with hlb | ⟨htp, hlb⟩
          · have hii : iID ≠ iID2 := by
              intro h
              exact hne (by simp [entityOf, h])
            exact inSlot_same_disjoint ch0 hii halen hblen hla hlb
          · exact hxi htp ⟨trivial, trivial⟩
        · exact hxi htp ⟨trivial, trivial⟩
      | bdryEdge p2 bID2 bfID2 cs2 =>
        obtain ⟨hb3, hb1, -, -⟩ := hvb
        rcases hla with hla | ⟨htp, hla⟩
        · rcases hlb with hlb | hlb
          · exact inSlot_cross_disjoint ch0 ch3 k03 halen (by omega) hla hlb
          · exact inSlot_cross_disjoint ch0 ch1 k01 halen (by omega) hla hlb
        · obtain ⟨hlen4, -, -⟩ := hres htp
          rcases hlb with hlb | hlb
          · rcases hla with hla | hla
            · exact inSlot_cross_disjoint ch3 ch4 k34 hb3 (by omega) hlb hla
            · exact inSlot_cross_disjoint ch3 ch4 k34 hb3 (by omega) hlb hla
          · rcases hla with hla | hla
            · exact inSlot_cross_disjoint ch1 ch4 k14 hb1 (by omega) hlb hla
            · exact inSlot_cross_disjoint ch1 ch4 k14 hb1 (by omega) hlb hla
      | vertex ps2 vID2 nDofs2 bfID2 =>
        obtain ⟨hv2, hv4, -, -, -, -, -⟩ := hvb
        rcases hla with hla | ⟨htp, hla⟩
        · rcases hlb with hlb | ⟨hle, hlb⟩
          · exact inSlot_cross_disjoint ch0 ch2 k02 halen (by omega) hla hlb
          · exact inSlot_cross_disjoint ch0 ch4 k04 halen (by omega) hla hlb
        · obtain ⟨hlen4, -, -⟩ := hres htp
          rcases hlb with hlb | ⟨hle, hlb⟩
          · rcases hla with hla | hla
            · exact inSlot_cross_disjoint ch2 ch4 k24 hv2 (by omega) hlb hla
            · exact inSlot_cross_disjoint ch2 ch4 k24 hv2 (by omega) hlb hla
          · have hnv := hxb htp
            rcases hla with hla | hla
            · have h1v : (1 : ℕ) ≠ vID2 := by
                intro h
                have := hnv (Or.inl h.symm)
                omega
              exact inSlot_same_disjoint ch4 h1v (by omega) hv4 hla hlb
            · have h3v : (3 : ℕ) ≠ vID2 := by
                intro h
                have := hnv (Or.inr h.symm)
                omega
              exact inSlot_same_disjoint ch4 h3v (by omega) hv4 hla hlb
    | bdryEdge p bID bfID cs =>
      obtain ⟨ha3, ha1, -, -⟩ := hva
      cases b with
      | iface pA2 pB2 iID2 bfID2 c02 c12 =>
        obtain ⟨hblen, -, -⟩ := hvb
        rcases hlb with hlb | ⟨htp, hlb⟩
        · rcases hla with hla | hla
          · exact inSlot_cross_disjoint ch0 ch3 k03 hblen (by omega) hlb hla
          · exact inSlot_cross_disjoint ch0 ch1 k01 hblen (by omega) hlb hla
        · obtain ⟨hlen4, -, -⟩ := hres htp
          rcases hla with hla | hla
          · rcases hlb with hlb | hlb
            · exact inSlot_cross_disjoint ch3 ch4 k34 ha3 (by omega) hla hlb
            · exact inSlot_cross_disjoint ch3 ch4 k34 ha3 (by omega) hla hlb
          · rcases hlb with hlb | hlb
            · exact inSlot_cross_disjoint ch1 ch4 k14 ha1 (by omega) hla hlb
            · exact inSlot_cross_disjoint ch1 ch4 k14 ha1 (by omega) hla hlb
      | bdryEdge p2 bID2 bfID2 cs2 =>
        obtain ⟨hb3, hb1, -, -⟩ := hvb
        have hbb : bID ≠ bID2 := by
          intro h
          exact hne (by simp [entityOf, h])
        rcases hla with hla | hla <;> rcases hlb with hlb | hlb
        · exact inSlot_same_disjoint ch3 hbb ha3 hb3 hla hlb
        · exact inSlot_cross_disjoint ch1 ch3 k13 hb1 (by omega) hlb hla
        · exact inSlot_cross_disjoint ch1 ch3 k13 ha1 (by omega) hla hlb
        · exact inSlot_same_disjoint ch1 hbb ha1 hb1 hla hlb
      | vertex ps2 vID2 nDofs2 bfID2 =>
        obtain ⟨hv2, hv4, -, -, -, -, -⟩ := hvb
        rcases hla with hla | hla <;> rcases hlb with hlb | ⟨hle, hlb⟩
        · exact inSlot_cross_disjoint ch2 ch3 k23 hv2 (by omega) hlb hla
        · exact inSlot_cross_disjoint ch3 ch4 k34 ha3 (by omega) hla hlb
        · exact inSlot_cross_disjoint ch1 ch2 k12 ha1 (by omega) hla hlb
        · exact inSlot_cross_disjoint ch1 ch4 k14 ha1 (by omega) hla hlb
    | vertex ps vID nDofs bfID =>
      obtain ⟨ha2, ha4, -, -, -, -, -⟩ := hva
      cases b with
      | iface pA2 pB2 iID2 bfID2 c02 c12 =>
        obtain ⟨hblen, -, -⟩ := hvb
        rcases hlb with hlb | ⟨htp, hlb⟩
        · rcases hla with hla | ⟨hle, hla⟩
          · exact inSlot_cross_disjoint ch0 ch2 k02 hblen (by omega) hlb hla
          · exact inSlot_cross_disjoint ch0 ch4 k04 hblen (by omega) hlb hla
        · obtain ⟨hlen4, -, -⟩ := hres htp
          rcases hla with hla | ⟨hle, hla⟩
          · rcases hlb with hlb | hlb
            · exact inSlot_cross_disjoint ch2 ch4 k24 ha2 (by omega) hla hlb
            · exact inSlot_cross_disjoint ch2 ch4 k24 ha2 (by omega) hla hlb
          · have hnv := hxa htp
            rcases hlb with hlb | hlb
            · have h1v : (1 : ℕ) ≠ vID := by
                intro h
                have := hnv (Or.inl h.symm)
                omega
              exact inSlot_same_disjoint ch4 h1v (by omega) ha4 hlb hla
            · have h3v : (3 : ℕ) ≠ vID := by
                intro h
                have := hnv (Or.inr h.symm)
                omega
              exact inSlot_same_disjoint ch4 h3v (by omega) ha4 hlb hla
      | bdryEdge p2 bID2 bfID2 cs2 =>
        obtain ⟨hb3, hb1, -, -⟩ := hvb
        rcases hla with hla | ⟨hle, hla⟩ <;> rcases hlb with hlb | hlb
        · exact inSlot_cross_disjoint ch2 ch3 k23 ha2 (by omega) hla hlb
        · exact inSlot_cross_disjoint ch1 ch2 k12 hb1 (by omega) hlb hla
        · exact inSlot_cross_disjoint ch3 ch4 k34 hb3 (by omega) hlb hla
        · exact inSlot_cross_disjoint ch1 ch4 k14 hb1 (by omega) hlb hla
      | vertex ps2 vID2 nDofs2 bfID2 =>
        obtain ⟨hv2, hv4, -, -, -, -, -⟩ := hvb
        have hvv : vID ≠ vID2 := by
          intro h
          exact hne (by simp [entityOf, h])
        rcases hla with hla | ⟨hlea, hla⟩ <;>
          rcases hlb with hlb | ⟨hleb, hlb⟩
        · exact inSlot_same_disjoint ch2 hvv ha2 hv2 hla hlb
        · exact inSlot_cross_disjoint ch2 ch4 k24 ha2 (by omega) hla hlb
        · exact inSlot_cross_disjoint ch2 ch4 k24 hv2 (by omega) hlb hla
        · exact inSlot_same_disjoint ch4 hvv ha4 hv4 hla hlb
  have hdisj : ∀ r ∈ rowsOfCall sys a, r ∉ rowsOfCall sys b := by
    intro r hra hrb
    exact hsep r (rowsOfCall_loc sys a hva hres r hra)
      (rowsOfCall_loc sys b hvb hres r hrb)
  refine ⟨hdisj, ?_⟩
  intro D
  apply applyW_comm
  intro w1 hw1 w2 hw2 heq
  exact hdisj (wRow w1) (List.mem_map_of_mem wRow hw1)
    (by rw [heq]; exact List.mem_map_of_mem wRow hw2)

/-- Witness for the amended C7 on the concrete two-patch configuration:
the interface call `callA` and the boundary-edge call `callC` satisfy
every hypothesis, `callA` writes row 24, and the theorem yields that
`callC` does not. -/
theorem c7_insertion_disjoint_witness :
    tablesChained sysTPaVal ∧ twoPatchReserved sysTPaVal ∧
    callValid sysTPaVal callA ∧ callValid sysTPaVal callC ∧
    entityOf callA ≠ entityOf callC ∧
    noVertexBdry13 callA ∧ noVertexBdry13 callC ∧
    ¬(isIfaceCall callA ∧ isIfaceCall callC) ∧
    (24 : ℤ) ∈ rowsOfCall sysTPaVal callA ∧
    (24 : ℤ) ∉ rowsOfCall sysTPaVal callC := by
  refine ⟨tablesChained_sysTPaVal, by decide, by decide, by decide, by decide,
    by decide, by decide, by decide, ?_, ?_⟩
  · rw [rows_callA]; decide
  · exact (c7_insertion_disjoint sysTPaVal callA callC tablesChained_sysTPaVal
      (fun _ => by decide) (by decide) (by decide) (by decide)
      (fun _ => by decide) (fun _ => by decide) (fun _ => by decide)).1
      24 (by rw [rows_callA]; decide)

end G1V
